import Mathlib

/-!
Verification development for the EspHttpServer request-routing and
content-delivery core (src/EspHttpServer.cpp).  The C++ code is embedded
shallowly: Arduino `String` values become `List Char`, the filesystem
becomes boolean oracles, and every definition below transcribes the
corresponding C++ function line by line.
-/

namespace EspHttpServer

/-- Strings are modelled as lists of characters. -/
abbrev Str := List Char

/-- Conversion from a Lean string literal to the model representation. -/
def chars (s : String) : Str := s.data

/-- Arduino `String::endsWith`. -/
def endsWithStr (s sfx : Str) : Bool := sfx.isSuffixOf s

/-- `hexToInt` lambda from `Server::urlDecode` (returns -1 on non-hex,
modelled as `none`). -/
def hexVal (c : Char) : Option Nat :=
  if '0' ≤ c ∧ c ≤ '9' then some (c.toNat - '0'.toNat)
  else if 'a' ≤ c ∧ c ≤ 'f' then some (c.toNat - 'a'.toNat + 10)
  else if 'A' ≤ c ∧ c ≤ 'F' then some (c.toNat - 'A'.toNat + 10)
  else none

/-- `Server::urlDecode`: percent-decodes `%XX`, maps `+` to space, and
copies every malformed escape through verbatim (it can never fail). -/
def urlDecode : Str → Str
  | [] => []
  | '%' :: a :: b :: rest =>
    (match hexVal a, hexVal b with
     | some hi, some lo => Char.ofNat (hi * 16 + lo) :: urlDecode rest
     | _, _ => '%' :: urlDecode (a :: b :: rest))
  | '+' :: rest => ' ' :: urlDecode rest
  | c :: rest => c :: urlDecode rest

/-- Splitting a path on `/`, dropping empty segments (the loop shared by
`Server::normalizeRoutePath` and `Server::parseRoutePattern`). -/
def splitSegsAux (cur : Str) : Str → List Str
  | [] => if cur = [] then [] else [cur]
  | c :: rest =>
    if c = '/' then
      (if cur = [] then splitSegsAux [] rest else cur :: splitSegsAux [] rest)
    else splitSegsAux (cur ++ [c]) rest

/-- `working.substring(0, working.indexOf('?'))` : everything before the
first `?`. -/
def stripQuery (s : Str) : Str := s.takeWhile (fun c => c ≠ '?')

/-- Anonymous-namespace helper `ensureLeadingSlash`. -/
def ensureLeadingSlash (p : Str) : Str :=
  if (chars "/").isPrefixOf p then p else '/' :: p

/-- Joining segments with `/` (the re-serialisation loop in
`normalizeRoutePath`, and the remainder join in `matchRoute`). -/
def joinSlash : List Str → Str
  | [] => []
  | [s] => s
  | s :: rest => s ++ '/' :: joinSlash rest

/-- `Server::normalizeRoutePath`: strips the query, percent-decodes,
re-splits, and rebuilds the normalized path.  The C++ function returns a
`bool` that is `true` on every path; the model keeps that flag as the
first component. -/
def normalizeRoutePath (raw : Str) : Bool × Str × List Str :=
  let w0 := stripQuery raw
  let w1 := if w0 = [] then chars "/" else w0
  let w := ensureLeadingSlash w1
  let decoded := urlDecode w
  let segs := splitSegsAux [] decoded
  (true, '/' :: joinSlash segs, segs)

/-- `Server::RouteSegment::Type`. -/
inductive SegType
  | literal
  | param
  | wildcard
deriving DecidableEq, Repr

/-- `Server::RouteSegment`. -/
structure RouteSegment where
  type : SegType
  value : Str
deriving DecidableEq, Repr

/-- The classification loop of `Server::parseRoutePattern`: `*name`
(wildcard, weight 1, only last), `:name` (param, weight 2), literal
(weight 3). -/
def classifyTokens : List Str → Bool → Option (List RouteSegment × Int)
  | [], _ => some ([], 0)
  | tok :: rest, wseen =>
    if tok.head? = some '*' then
      if wseen ∨ rest ≠ [] then none
      else
        let name := tok.drop 1
        if name = [] then none
        else (classifyTokens rest true).map
          (fun p => (⟨SegType.wildcard, name⟩ :: p.1, p.2 + 1))
    else if tok.head? = some ':' then
      let name := tok.drop 1
      if name = [] then none
      else (classifyTokens rest wseen).map
        (fun p => (⟨SegType.param, name⟩ :: p.1, p.2 + 2))
    else (classifyTokens rest wseen).map
      (fun p => (⟨SegType.literal, tok⟩ :: p.1, p.2 + 3))

/-- `Server::parseRoutePattern`: returns the compiled segments and the
specificity score, or `none` (`false` in C++) on a malformed pattern. -/
def parseRoutePattern (pattern : Str) : Option (List RouteSegment × Int) :=
  let w0 := stripQuery pattern
  let w1 := if w0 = [] then chars "/" else w0
  let w := ensureLeadingSlash w1
  classifyTokens (splitSegsAux [] w) false

/-- `Server::matchRoute`: literals need exact equality, params bind one
segment, a wildcard binds the joined remainder and exhausts the path. -/
def matchRoute : List RouteSegment → List Str → Option (List (Str × Str))
  | [], path => if path = [] then some [] else none
  | seg :: rs, path =>
    match seg.type with
    | SegType.literal =>
      (match path with
       | [] => none
       | p :: ps => if p = seg.value then matchRoute rs ps else none)
    | SegType.param =>
      (match path with
       | [] => none
       | p :: ps => (matchRoute rs ps).map (fun pr => (seg.value, p) :: pr))
    | SegType.wildcard =>
      (matchRoute rs []).map (fun pr => (seg.value, joinSlash path) :: pr)

/-- `Server::DynamicRoute` (handler elided; dispatch models handler
behaviour separately, by route index). -/
structure DynamicRoute where
  method : Nat
  pattern : Str
  segments : List RouteSegment
  score : Int
deriving DecidableEq, Repr

/-- Mirror of `Server::on`: compile a pattern into a registered route
(the fallback arm is unreachable for well-formed patterns). -/
def routeFromPattern (m : Nat) (pat : String) : DynamicRoute :=
  match parseRoutePattern (chars pat) with
  | some p => { method := m, pattern := chars pat, segments := p.1, score := p.2 }
  | none => { method := m, pattern := chars pat, segments := [], score := 0 }

/-- The selection loop of `Server::dispatchDynamic`: scan registered
routes in order, keeping the first route whose score strictly exceeds
the running best (`bestScore` starts at -1). -/
def selectRouteAux (m : Nat) (path : List Str) :
    List DynamicRoute → Nat → Option (Nat × DynamicRoute × List (Str × Str)) → Int →
    Option (Nat × DynamicRoute × List (Str × Str))
  | [], _, best, _ => best
  | r :: rs, i, best, bestScore =>
    if r.method = m then
      match matchRoute r.segments path with
      | some ps =>
        if bestScore < r.score then
          selectRouteAux m path rs (i + 1) (some (i, r, ps)) r.score
        else selectRouteAux m path rs (i + 1) best bestScore
      | none => selectRouteAux m path rs (i + 1) best bestScore
    else selectRouteAux m path rs (i + 1) best bestScore

/-- Route selection over the whole table, as in `Server::dispatchDynamic`. -/
def selectRoute (m : Nat) (path : List Str) (routes : List DynamicRoute) :
    Option (Nat × DynamicRoute × List (Str × Str)) :=
  selectRouteAux m path routes 0 none (-1)

/-- `Server::dispatchDynamic` for a server with no static handlers:
normalize (with its dead 400 branch), select the best dynamic route,
run its handler (modelled by the list of status codes it sends, per
route index), and fall back to 500/404 exactly as the C++ does. -/
def dispatchDynamicModel (routes : List DynamicRoute) (handlerActs : Nat → List Int)
    (notFoundActs : Option (List Int)) (m : Nat) (raw : Str) : List Int :=
  let norm := normalizeRoutePath raw
  if norm.1 = false then [400]
  else
    match selectRoute m norm.2.2 routes with
    | some q =>
      let acts := handlerActs q.1
      acts ++ (if acts = [] then [500] else [])
    | none =>
      match notFoundActs with
      | some acts => acts ++ (if acts = [] then [404] else [])
      | none => [404]

/-- Anonymous-namespace helper `joinFsPath`. -/
def joinFsPath (base rel : Str) : Str :=
  let result0 := if base = [] then chars "/" else base
  let result := if endsWithStr result0 (chars "/") then result0 else result0 ++ ['/']
  let trimmed := if (chars "/").isPrefixOf rel then rel.drop 1 else rel
  result ++ trimmed

/-- `s.substring(0, s.length() - 3)` : drop a trailing 3-character
suffix such as `.gz`. -/
def stripLast3 (s : Str) : Str := s.take (s.length - 3)

/-- `StaticInfo` from the header (field `exists` renamed `existsFlag`;
in C++ all flags default to false and paths to the empty string). -/
structure StaticInfo where
  uri : Str
  relPath : Str
  fsPath : Str
  existsFlag : Bool
  isDir : Bool
  isGzipped : Bool
  logicalPath : Str
deriving DecidableEq, Repr

/-- The `kIndexCandidates` loop of `Server::setupStaticInfoFromFS`:
probe `index.html` then `index.htm` under `dirRel`, the gzip variant of
each before the plain file; returns the storage path, the candidate
relative path and whether the gzip variant was taken. -/
def fsIndexProbe (fsE : Str → Bool) (base dirRel : Str) :
    List Str → Option (Str × Str × Bool)
  | [] => none
  | name :: rest =>
    let candidateRel := dirRel ++ name
    let candidatePlain := joinFsPath base candidateRel
    let candidateGz := candidatePlain ++ chars ".gz"
    if fsE candidateGz then some (candidateGz, candidateRel, true)
    else if fsE candidatePlain then some (candidatePlain, candidateRel, false)
    else fsIndexProbe fsE base dirRel rest

/-- `Server::setupStaticInfoFromFS` (the resolution part, producing the
`StaticInfo` descriptor).  The filesystem is abstracted by two oracles:
`fsE p` is `fs->exists(p)` and `fsD p` is `open(p).isDirectory()`. -/
def setupStaticInfoFromFS (fsE fsD : Str → Bool)
    (base normalizedUri relPath : Str) : StaticInfo :=
  let requestGz := endsWithStr relPath (chars ".gz")
  let relBase :=
    if requestGz then
      (let b := stripLast3 relPath; if b = [] then chars "/" else b)
    else relPath
  let plainFsPath := joinFsPath base relBase
  let gzFsPath := plainFsPath ++ chars ".gz"
  let hasGz := fsE gzFsPath
  let hasPlain := fsE plainFsPath
  let first : Str × Bool × Bool × Bool :=
    if requestGz then (gzFsPath, hasGz, true, false)
    else if hasGz then (gzFsPath, true, true, false)
    else if hasPlain then (plainFsPath, true, false, fsD plainFsPath)
    else (plainFsPath, false, false, false)
  let second : Str × Bool × Bool × Bool × Str :=
    if first.2.1 ∧ first.2.2.2 then
      let dirRel0 := ensureLeadingSlash relBase
      let dirRel := if endsWithStr dirRel0 (chars "/") then dirRel0 else dirRel0 ++ ['/']
      match fsIndexProbe fsE base dirRel [chars "index.html", chars "index.htm"] with
      | some q => (q.1, true, q.2.2, false, ensureLeadingSlash q.2.1)
      | none => (first.1, false, false, false, relPath)
    else (first.1, first.2.1, first.2.2.1, first.2.2.2, relPath)
  let logical :=
    if second.2.2.1 ∧ endsWithStr second.2.2.2.2 (chars ".gz") then
      stripLast3 second.2.2.2.2
    else second.2.2.2.2
  { uri := normalizedUri, relPath := relPath, fsPath := second.1,
    existsFlag := second.2.1, isDir := second.2.2.2.1,
    isGzipped := second.2.2.1, logicalPath := logical }

/-- The first scan loop of `Server::setupStaticInfoFromMemory`: find
the first key equal to `relBase` (plain) and to `gzRel` (gzip), and
whether any key starts with `dirPfx`. -/
def scanMem (relBase gzRel dirPfx : Str) :
    List Str → Nat → Option Nat → Option Nat → Bool →
    Option Nat × Option Nat × Bool
  | [], _, p, g, h => (p, g, h)
  | k :: ks, i, p, g, h =>
    let hitPlain := p = none ∧ k = relBase
    let p' := if hitPlain then some i else p
    let g' := if hitPlain then g else if g = none ∧ k = gzRel then some i else g
    let h' := h || dirPfx.isPrefixOf k
    scanMem relBase gzRel dirPfx ks (i + 1) p' g' h'

/-- Inner loop of the `findIndexByPath` lambda. -/
def findKeyAux (target : Str) : List Str → Nat → Option Nat
  | [], _ => none
  | k :: ks, i => if k = target then some i else findKeyAux target ks (i + 1)

/-- The `findIndexByPath` lambda of `Server::setupStaticInfoFromMemory`
(an empty target always misses). -/
def findIndexByPath (keys : List Str) (target : Str) : Option Nat :=
  if target = [] then none else findKeyAux target keys 0

/-- The `kIndexCandidates` loop of `Server::setupStaticInfoFromMemory`:
probe each candidate's gzip key before its plain key, stopping at the
first hit.  The second component records, in order, every key the loop
looked up. -/
def memIndexProbe (keys : List Str) (dirPfx : Str) :
    List Str → Option (Nat × Str × Bool) × List Str
  | [] => (none, [])
  | name :: rest =>
    let candidateRel := dirPfx ++ name
    match findIndexByPath keys (candidateRel ++ chars ".gz") with
    | some i => (some (i, candidateRel, true), [candidateRel ++ chars ".gz"])
    | none =>
      match findIndexByPath keys candidateRel with
      | some i => (some (i, candidateRel, false),
                   [candidateRel ++ chars ".gz", candidateRel])
      | none =>
        let q := memIndexProbe keys dirPfx rest
        (q.1, (candidateRel ++ chars ".gz") :: candidateRel :: q.2)

/-- Result of a memory-backend resolution: the descriptor plus the
trace of index-candidate keys that were probed. -/
structure MemResolution where
  info : StaticInfo
  probes : List Str
deriving DecidableEq, Repr

/-- `Server::setupStaticInfoFromMemory` (the resolution part).  `keys`
is the `memPaths` array; data and sizes are irrelevant to resolution. -/
def setupStaticInfoFromMemory (keys : List Str)
    (normalizedUri relPath : Str) : MemResolution :=
  let requestGz := endsWithStr relPath (chars ".gz")
  let relBase0 :=
    if requestGz then
      (let b := stripLast3 relPath; if b = [] then chars "/" else b)
    else relPath
  let relBase := ensureLeadingSlash relBase0
  let gzRel := relBase ++ chars ".gz"
  let dirPfx := if endsWithStr relBase (chars "/") then relBase else relBase ++ ['/']
  let scanned := scanMem relBase gzRel dirPfx keys 0 none none false
  let directoryHint := endsWithStr relPath (chars "/") || scanned.2.2
  let probed : Option Nat × Option Nat × Str × List Str :=
    if scanned.1 = none ∧ scanned.2.1 = none ∧ directoryHint then
      match memIndexProbe keys dirPfx [chars "index.html", chars "index.htm"] with
      | (some (i, crel, true), tr) => (none, some i, crel, tr)
      | (some (i, crel, false), tr) => (some i, scanned.2.1, crel, tr)
      | (none, tr) => (scanned.1, scanned.2.1, relPath, tr)
    else (scanned.1, scanned.2.1, relPath, [])
  let chosen : Option Nat × Bool :=
    if requestGz then
      match probed.2.1 with
      | some i => (some i, true)
      | none => (none, false)
    else
      match probed.2.1 with
      | some i => (some i, true)
      | none =>
        match probed.1 with
        | some i => (some i, false)
        | none => (none, false)
  match chosen.1 with
  | some i =>
    let lp :=
      if chosen.2 ∧ endsWithStr probed.2.2.1 (chars ".gz") then
        stripLast3 probed.2.2.1
      else probed.2.2.1
    ⟨{ uri := normalizedUri, relPath := relPath, fsPath := keys.getD i [],
       existsFlag := true, isDir := false, isGzipped := chosen.2,
       logicalPath := lp }, probed.2.2.2⟩
  | none =>
    ⟨{ uri := normalizedUri, relPath := relPath, fsPath := [],
       existsFlag := false, isDir := false, isGzipped := requestGz,
       logicalPath := probed.2.2.1 }, probed.2.2.2⟩

/-- ASCII `tolower`, as applied by `emitChar` to each character. -/
def asciiLower (c : Char) : Char :=
  if 'A' ≤ c ∧ c ≤ 'Z' then Char.ofNat (c.toNat + 32) else c

/-- C `isspace`: space, tab, newline, vertical tab, form feed, carriage
return. -/
def isSpaceChar (c : Char) : Bool :=
  c = ' ' || c = '\t' || c = '\n' || c = '\x0b' || c = '\x0c' || c = '\r'

/-- The literal token `kHeadToken` = `"<head"`. -/
def headTok : Str := chars "<head"

/-- The head-injection state threaded through `emitChar` in
`Response::streamHtmlFromSource`. -/
structure HeadState where
  snippetInserted : Bool
  headMatchIdx : Nat
  awaitingHeadBoundary : Bool
  waitingHeadClose : Bool
deriving DecidableEq, Repr

/-- One step of the `emitChar` lambda: consumes the character the
template layer emits, outputs it (followed by the snippet at the
insertion point, which bypasses the matcher as `appendRawString` does),
and reports whether the snippet was inserted at this step. -/
def emitCharStep (snippet : Str) (st : HeadState) (c : Char) :
    HeadState × Str × Bool :=
  if st.snippetInserted then (st, [c], false)
  else
    let lower := asciiLower c
    if ¬st.awaitingHeadBoundary ∧ ¬st.waitingHeadClose then
      let st' :=
        if lower = headTok.getD st.headMatchIdx ' ' then
          if st.headMatchIdx + 1 = headTok.length then
            { st with awaitingHeadBoundary := true, headMatchIdx := 0 }
          else { st with headMatchIdx := st.headMatchIdx + 1 }
        else if lower = '<' then { st with headMatchIdx := 1 }
        else { st with headMatchIdx := 0 }
      (st', [c], false)
    else if st.awaitingHeadBoundary then
      if c = '>' then
        ({ st with awaitingHeadBoundary := false, snippetInserted := true },
         c :: snippet, true)
      else if c = '/' ∨ isSpaceChar c then
        ({ st with awaitingHeadBoundary := false, waitingHeadClose := true },
         [c], false)
      else ({ st with awaitingHeadBoundary := false }, [c], false)
    else
      if c = '>' then
        ({ st with waitingHeadClose := false, snippetInserted := true },
         c :: snippet, true)
      else (st, [c], false)

/-- Feed a whole emitted stream through the head-injection layer,
collecting the output bytes and the number of snippet insertions. -/
def feedHead (snippet : Str) : HeadState → Str → HeadState × Str × Nat
  | st, [] => (st, [], 0)
  | st, c :: rest =>
    let q1 := emitCharStep snippet st c
    let q2 := feedHead snippet q1.1 rest
    (q2.1, q1.2.1 ++ q2.2.1, (if q1.2.2 then 1 else 0) + q2.2.2)

/-- Initial head-injection state: `snippetInserted` starts `true` iff
no (non-empty) snippet is configured. -/
def initialHeadState (snippet : Str) : HeadState :=
  { snippetInserted := snippet = [], headMatchIdx := 0,
    awaitingHeadBoundary := false, waitingHeadClose := false }

/-- The head-injection layer applied to a full emitted stream. -/
def injectHead (snippet : Str) (emitted : Str) : Str :=
  (feedHead snippet (initialHeadState snippet) emitted).2.1

/-- One character of the anonymous-namespace `htmlEscape`. -/
def escapeChar : Char → Str
  | '&' => chars "&amp;"
  | '<' => chars "&lt;"
  | '>' => chars "&gt;"
  | '"' => chars "&quot;"
  | '\'' => chars "&#39;"
  | c => [c]

/-- Anonymous-namespace `htmlEscape`. -/
def htmlEscape : Str → Str
  | [] => []
  | c :: rest => escapeChar c ++ htmlEscape rest

/-- Arduino `String::trim`: strip leading and trailing whitespace. -/
def trimStr (s : Str) : Str :=
  ((s.dropWhile fun c => isSpaceChar c).reverse.dropWhile fun c => isSpaceChar c).reverse

/-- `TemplateState` from `Response::streamHtmlFromSource`. -/
inductive TemplateState
  | normal
  | openBrace
  | placeholder
deriving DecidableEq, Repr

/-- The template-machine locals of `Response::streamHtmlFromSource`. -/
structure TmplState where
  state : TemplateState
  braceCount : Nat
  waitingThird : Bool
  triple : Bool
  closingCount : Nat
  placeholderRaw : Str
deriving DecidableEq, Repr

/-- A placeholder resolver: `some f` models a configured
`_templateHandler`, with `f key = some repl` meaning the handler
returned `true` after writing `repl`, and `f key = none` meaning it
returned `false`. -/
abbrev Resolver := Option (Str → Option Str)

/-- Completion of a placeholder (the `closingCount == needed` block):
trim the key, consult the resolver (only for a non-empty key), emit the
escaped/raw replacement on success, or the original literal token on
failure. -/
def finishPlaceholder (resolver : Resolver) (st : TmplState) : Str :=
  let key := trimStr st.placeholderRaw
  let needed := if st.triple then 3 else 2
  let res :=
    match resolver with
    | some f => if key = [] then none else f key
    | none => none
  match res with
  | some repl => if st.triple then repl else htmlEscape repl
  | none =>
    List.replicate needed '{' ++ st.placeholderRaw ++ List.replicate needed '}'

/-- `Placeholder` handling after the `waitingThird` question is
settled (the part of the `switch` below the `waitingThird` block). -/
def placeholderCore (resolver : Resolver) (st : TmplState) (ch : Char) :
    TmplState × Str :=
  if ch = '}' then
    let cc := st.closingCount + 1
    let needed := if st.triple then 3 else 2
    if cc = needed then
      ({ st with
          state := TemplateState.normal, braceCount := 0,
          closingCount := 0, triple := false, placeholderRaw := [] },
       finishPlaceholder resolver st)
    else ({ st with closingCount := cc }, [])
  else
    ({ st with
        placeholderRaw :=
          st.placeholderRaw ++ List.replicate st.closingCount '}' ++ [ch],
        closingCount := 0 }, [])

/-- One input character through the template state machine (the
`switch` with its `reprocess` loop, which re-runs at most once). -/
def tmplStep (resolver : Resolver) (st : TmplState) (ch : Char) :
    TmplState × Str :=
  let active := resolver.isSome
  match st.state with
  | TemplateState.normal =>
    if active ∧ ch = '{' then
      ({ st with state := TemplateState.openBrace, braceCount := 1 }, [])
    else (st, [ch])
  | TemplateState.openBrace =>
    if active ∧ ch = '{' then
      let bc := st.braceCount + 1
      if bc = 2 then
        ({ st with
            state := TemplateState.placeholder, braceCount := bc,
            placeholderRaw := [], waitingThird := true, triple := false,
            closingCount := 0 }, [])
      else ({ st with braceCount := bc }, [])
    else
      ({ st with state := TemplateState.normal, braceCount := 0 },
       List.replicate st.braceCount '{' ++ [ch])
  | TemplateState.placeholder =>
    if st.waitingThird then
      if ch = '{' then
        ({ st with triple := true, waitingThird := false }, [])
      else placeholderCore resolver { st with waitingThird := false } ch
    else placeholderCore resolver st ch

/-- End-of-stream flush of a partial brace run or placeholder. -/
def tmplFinish (st : TmplState) : Str :=
  match st.state with
  | TemplateState.normal => []
  | TemplateState.openBrace => List.replicate st.braceCount '{'
  | TemplateState.placeholder =>
    let needed := if st.triple then 3 else 2
    List.replicate needed '{' ++ st.placeholderRaw ++
      List.replicate st.closingCount '}'

/-- Run the template machine over an input, collecting emitted
characters. -/
def tmplRunFrom (resolver : Resolver) : TmplState → Str → TmplState × Str
  | st, [] => (st, [])
  | st, c :: rest =>
    let q1 := tmplStep resolver st c
    let q2 := tmplRunFrom resolver q1.1 rest
    (q2.1, q1.2 ++ q2.2)

/-- Initial template-machine state. -/
def initialTmplState : TmplState :=
  { state := TemplateState.normal, braceCount := 0, waitingThird := false,
    triple := false, closingCount := 0, placeholderRaw := [] }

/-- The stream of characters the template layer hands to `emitChar`
for a whole input, including the end-of-stream flush. -/
def templateEmit (resolver : Resolver) (input : Str) : Str :=
  let q := tmplRunFrom resolver initialTmplState input
  q.2 ++ tmplFinish q.1

/-- The `appendRawChar`/`flushChunk` buffering: append characters,
flushing whenever the buffer reaches `limit` bytes; the final partial
buffer is flushed at end of input.  The zero-length terminator chunk is
not represented. -/
def chunkAux (limit : Nat) : Str → Str → List Str
  | buf, [] => if buf = [] then [] else [buf]
  | buf, c :: rest =>
    let buf2 := buf ++ [c]
    if limit ≤ buf2.length then buf2 :: chunkAux limit [] rest
    else chunkAux limit buf2 rest

/-- Split an output stream into chunks under byte budget `limit`. -/
def chunksOf (limit : Nat) (s : Str) : List Str := chunkAux limit [] s

/-- The byte stream `Response::streamHtmlFromSource` sends for a given
input: template substitution, then head injection. -/
def renderBytes (resolver : Resolver) (snippet input : Str) : Str :=
  injectHead snippet (templateEmit resolver input)

/-- `Response::streamHtmlFromSource` as a whole: the list of chunks
written to the transport sink (the C++ fixes `limit` = `kChunkLimit` =
512; it is a parameter here so the byte budget can be varied). -/
def streamHtmlFromSource (resolver : Resolver) (snippet : Str)
    (limit : Nat) (input : Str) : List Str :=
  chunksOf limit (renderBytes resolver snippet input)

/-- The resolver of the spec's template round-trip example: `title`
resolves to `A & B`, everything else is unhandled. -/
def titleResolver : Str → Option Str :=
  fun k => if k = chars "title" then some (chars "A & B") else none

/-! ## Supporting lemmas -/

/-- Concatenating the chunks of a buffered stream recovers the original
bytes, for every byte budget. -/
theorem chunkAux_join (limit : Nat) :
    ∀ (s buf : Str), (chunkAux limit buf s).flatten = buf ++ s := by
  intro s
  induction s with
  | nil =>
    intro buf
    by_cases h : buf = [] <;> simp [chunkAux, h]
  | cons c rest ih =>
    intro buf
    by_cases h : limit ≤ buf.length + 1 <;>
      simp [chunkAux, h, ih]

/-- With no template handler, the machine never leaves `Normal` and
passes every character through unchanged. -/
theorem tmplRunFrom_none (s : Str) :
    tmplRunFrom none initialTmplState s = (initialTmplState, s) := by
  induction s with
  | nil => rfl
  | cons c rest ih =>
    have hstep : tmplStep none initialTmplState c = (initialTmplState, [c]) := rfl
    simp [tmplRunFrom, hstep, ih]

/-- The first component of `normalizeRoutePath` (the C++ return value)
is `true` on every input. -/
theorem normalizeRoutePath_fst (raw : Str) : (normalizeRoutePath raw).1 = true := rfl

/-! ## Claim theorems -/

/-- Claim C1 (code bug): the spec requires dispatch to reject a raw path
containing a malformed percent escape with `DecodeError`→400 before any
resolution, but `Server::urlDecode` copies malformed escapes through
verbatim and `normalizeRoutePath` returns `true` unconditionally, so the
400 branch of `dispatchDynamic` is unreachable: the request `/a%zz`
proceeds to route matching and (with no routes) yields 404, not 400. -/
theorem C1_malformed_escape_not_rejected :
    (∀ raw : Str, (normalizeRoutePath raw).1 = true)
    ∧ urlDecode (chars "/a%zz") = chars "/a%zz"
    ∧ dispatchDynamicModel [] (fun _ => []) none 1 (chars "/a%zz") = [404]
    ∧ dispatchDynamicModel [] (fun _ => []) none 1 (chars "/a%zz") ≠ [400] :=
  ⟨fun raw => rfl, by decide, by decide, by decide⟩

/-- Claim C7: the concatenation of all chunks the render engine writes
(excluding the zero-length terminator) is independent of the output byte
budget; budgets 1 and 10000 give byte-identical output for every input,
resolver and snippet. -/
theorem C7_chunk_boundary_invariance :
    ∀ (resolver : Resolver) (snippet input : Str),
      (streamHtmlFromSource resolver snippet 1 input).flatten =
        (streamHtmlFromSource resolver snippet 10000 input).flatten := by
  intro resolver snippet input
  simp [streamHtmlFromSource, chunksOf, chunkAux_join]

/-- Claim C10: with no template handler configured the placeholder
machine is never entered — every character, including every `{`, is
emitted verbatim — while head-snippet injection still operates on the
emitted stream (concrete instance: `<head>{{k}}` with snippet `<s>`). -/
theorem C10_inactive_template_passthrough :
    (∀ input : Str, templateEmit none input = input)
    ∧ (∀ (snippet input : Str) (limit : Nat),
        streamHtmlFromSource none snippet limit input =
          chunksOf limit (injectHead snippet input))
    ∧ renderBytes none (chars "<s>") (chars "<head>{{k}}{{{j}}}") =
        chars "<head><s>{{k}}{{{j}}}" := by
  refine ⟨?_, ?_, by decide⟩
  · intro input
    simp only [templateEmit]
    rw [tmplRunFrom_none]
    simp [tmplFinish, initialTmplState]
  · intro snippet input limit
    simp only [streamHtmlFromSource, renderBytes, templateEmit]
    rw [tmplRunFrom_none]
    simp [tmplFinish, initialTmplState]

/-- Claim C8: whenever dispatch matches a dynamic route and the handler
returns without sending anything, the dispatcher emits a default 500;
dispatch always sends at least one response, and a silent handler's
request ends with exactly the single 500 response. -/
theorem C8_uncommitted_handler_gets_500 :
    (∀ (routes : List DynamicRoute) (hA : Nat → List Int)
       (nf : Option (List Int)) (m : Nat) (raw : Str),
        dispatchDynamicModel routes hA nf m raw ≠ [])
    ∧ (∀ (routes : List DynamicRoute) (hA : Nat → List Int)
         (nf : Option (List Int)) (m : Nat) (raw : Str)
         (i : Nat) (r : DynamicRoute) (ps : List (Str × Str)),
        selectRoute m (normalizeRoutePath raw).2.2 routes = some (i, r, ps) →
        (hA i = [] → dispatchDynamicModel routes hA nf m raw = [500])
        ∧ (hA i ≠ [] → dispatchDynamicModel routes hA nf m raw = hA i)) := by
  constructor
  · intro routes hA nf m raw
    unfold dispatchDynamicModel
    simp only [normalizeRoutePath_fst]
    cases hsel : selectRoute m (normalizeRoutePath raw).2.2 routes with
    | some q =>
      by_cases h : hA q.1 = [] <;> simp [h]
    | none =>
      cases nf with
      | some acts => by_cases h : acts = [] <;> simp [h]
      | none => simp
  · intro routes hA nf m raw i r ps hsel
    unfold dispatchDynamicModel
    simp only [normalizeRoutePath_fst, hsel]
    constructor
    · intro h; simp [h]
    · intro h; simp [h]

/-- Witness for C8 at a concrete route table: a matched handler that
sends nothing is converted to a single 500. -/
theorem C8_uncommitted_handler_gets_500_witness :
    dispatchDynamicModel [routeFromPattern 1 "/users/new"] (fun _ => []) none 1
      (chars "/users/new") = [500] :=
  (C8_uncommitted_handler_gets_500.2 [routeFromPattern 1 "/users/new"]
    (fun _ => []) none 1 (chars "/users/new") 0 (routeFromPattern 1 "/users/new")
    [] (by decide)).1 (by decide)

/-- A head-injection step reports an insertion exactly when the
`snippetInserted` flag flips from `false` to `true`. -/
theorem emitCharStep_flag (snippet : Str) (st : HeadState) (c : Char) :
    ((emitCharStep snippet st c).2.2 = true →
      (emitCharStep snippet st c).1.snippetInserted = true ∧
        st.snippetInserted = false)
    ∧ ((emitCharStep snippet st c).2.2 = false →
      (emitCharStep snippet st c).1.snippetInserted = st.snippetInserted) := by
  unfold emitCharStep
  cases hb : st.snippetInserted with
  | true => simp [hb]
  | false =>
    simp only [hb]
    split_ifs <;> simp_all

/-- Once the snippet has been inserted, the flag stays set and no
further insertion occurs. -/
theorem feedHead_mono (snippet : Str) :
    ∀ (s : Str) (st : HeadState), st.snippetInserted = true →
      (feedHead snippet st s).1.snippetInserted = true ∧
        (feedHead snippet st s).2.2 = 0 := by
  intro s
  induction s with
  | nil => intro st h; simp [feedHead, h]
  | cons c rest ih =>
    intro st h
    have hstep : emitCharStep snippet st c = (st, [c], false) := by
      unfold emitCharStep; simp [h]
    simp [feedHead, hstep, ih st h]

/-- Over any emitted stream, the number of snippet insertions equals 1
exactly when the run completes an insertion, and is 0 otherwise; in
particular it never exceeds 1. -/
theorem feedHead_count (snippet : Str) :
    ∀ (s : Str) (st : HeadState),
      (feedHead snippet st s).2.2 =
        (if st.snippetInserted then 0
         else if (feedHead snippet st s).1.snippetInserted then 1 else 0) := by
  intro s
  induction s with
  | nil =>
    intro st
    by_cases h : st.snippetInserted = true <;> simp [feedHead, h]
  | cons c rest ih =>
    intro st
    by_cases h : st.snippetInserted = true
    · have := feedHead_mono snippet (c :: rest) st h
      simp [this.2, h]
    · have hb : st.snippetInserted = false := by simpa using h
      cases hins : (emitCharStep snippet st c).2.2 with
      | true =>
        have hf := (emitCharStep_flag snippet st c).1 hins
        have hmono := feedHead_mono snippet rest (emitCharStep snippet st c).1 hf.1
        simp [feedHead, hins, hmono.2, hmono.1, hb]
      | false =>
        have hf := (emitCharStep_flag snippet st c).2 hins
        have := ih (emitCharStep snippet st c).1
        simp [feedHead, hins, this, hf, hb]

/-- Claim C4: with a non-empty head snippet configured the snippet is
inserted at most once per render — exactly once when the run completes
an insertion — immediately after the `>` closing the first
case-insensitive `<head ...>` tag; the spec's round-trip example holds
with the double-brace value HTML-escaped, and a second `<head>` tag
receives no second insertion. -/
theorem C4_head_snippet_once :
    (∀ (snippet stream : Str), snippet ≠ [] →
      (feedHead snippet (initialHeadState snippet) stream).2.2 =
        (if (feedHead snippet (initialHeadState snippet) stream).1.snippetInserted
         then 1 else 0))
    ∧ renderBytes (some titleResolver) (chars "<!--X-->")
        (chars "<head><title>{{title}}</title></head>") =
        chars "<head><!--X--><title>A &amp; B</title></head>"
    ∧ injectHead (chars "<s>") (chars "<head><head>") = chars "<head><s><head>"
    ∧ (feedHead (chars "<s>") (initialHeadState (chars "<s>")) (chars "<head><head>")).2.2 = 1
    ∧ injectHead (chars "X") (chars "<HEAD lang=en><p>") = chars "<HEAD lang=en>X<p>" := by
  refine ⟨?_, by decide, by decide, by decide, by decide⟩
  intro snippet stream h
  have h0 : (initialHeadState snippet).snippetInserted = false := by
    simp [initialHeadState, h]
  rw [feedHead_count snippet stream (initialHeadState snippet), h0]
  simp

/-- Witness for C4: concrete snippet and stream, single insertion. -/
theorem C4_head_snippet_once_witness :
    (feedHead (chars "<s>") (initialHeadState (chars "<s>")) (chars "<head>x")).2.2 =
      (if (feedHead (chars "<s>") (initialHeadState (chars "<s>"))
            (chars "<head>x")).1.snippetInserted then 1 else 0) :=
  C4_head_snippet_once.1 (chars "<s>") (chars "<head>x") (by decide)

/-- Unfolding one input character of the template run. -/
theorem tmplRunFrom_cons_eq (res : Resolver) (st st' : TmplState) (c : Char)
    (out : Str) (s : Str) (h : tmplStep res st c = (st', out)) :
    tmplRunFrom res st (c :: s) =
      ((tmplRunFrom res st' s).1, out ++ (tmplRunFrom res st' s).2) := by
  simp [tmplRunFrom, h]

/-- First `{` with an active handler: enter `OpenBrace`. -/
theorem tmplStep_open1 (f : Str → Option Str) :
    tmplStep (some f) initialTmplState '{' =
      (⟨TemplateState.openBrace, 1, false, false, 0, []⟩, []) := rfl

/-- Second `{`: enter `Placeholder`, awaiting a possible third brace. -/
theorem tmplStep_open2 (f : Str → Option Str) :
    tmplStep (some f) ⟨TemplateState.openBrace, 1, false, false, 0, []⟩ '{' =
      (⟨TemplateState.placeholder, 2, true, false, 0, []⟩, []) := rfl

/-- A third `{` selects triple-brace (raw) mode. -/
theorem tmplStep_third_brace (f : Str → Option Str) :
    tmplStep (some f) ⟨TemplateState.placeholder, 2, true, false, 0, []⟩ '{' =
      (⟨TemplateState.placeholder, 2, false, true, 0, []⟩, []) := rfl

/-- Any non-`{` character settles the third-brace question and is
reprocessed by the placeholder body. -/
theorem tmplStep_third_other (f : Str → Option Str) (tpl : Bool) (c : Char)
    (hc : c ≠ '{') :
    tmplStep (some f) ⟨TemplateState.placeholder, 2, true, tpl, 0, []⟩ c =
      placeholderCore (some f) ⟨TemplateState.placeholder, 2, false, tpl, 0, []⟩ c := by
  simp [tmplStep, hc]

/-- Placeholder body: a non-`}` character folds any pending closers into
the raw text and is accumulated. -/
theorem placeholderCore_char (f : Str → Option Str) (bc cc : Nat) (tpl : Bool)
    (r : Str) (c : Char) (hc : c ≠ '}') :
    placeholderCore (some f) ⟨TemplateState.placeholder, bc, false, tpl, cc, r⟩ c =
      (⟨TemplateState.placeholder, bc, false, tpl, 0,
        r ++ List.replicate cc '}' ++ [c]⟩, []) := by
  simp [placeholderCore, hc]

/-- Placeholder body: a `}` short of the needed count only bumps the
closing counter. -/
theorem placeholderCore_close_partial (f : Str → Option Str) (bc cc : Nat)
    (tpl : Bool) (r : Str) (h : ¬cc + 1 = (if tpl then 3 else 2)) :
    placeholderCore (some f) ⟨TemplateState.placeholder, bc, false, tpl, cc, r⟩ '}' =
      (⟨TemplateState.placeholder, bc, false, tpl, cc + 1, r⟩, []) := by
  simp [placeholderCore, h]

/-- An unresolved completed placeholder re-emits the original literal
token: opening braces, raw key text and closing braces. -/
theorem finishPlaceholder_unres (f : Str → Option Str) (st : TmplState)
    (hres : f (trimStr st.placeholderRaw) = none ∨ trimStr st.placeholderRaw = []) :
    finishPlaceholder (some f) st =
      List.replicate (if st.triple then 3 else 2) '{' ++ st.placeholderRaw ++
        List.replicate (if st.triple then 3 else 2) '}' := by
  unfold finishPlaceholder
  rcases hres with h | h
  · by_cases hk : trimStr st.placeholderRaw = [] <;> simp [h, hk]
  · simp [h]

/-- Placeholder body: the final `}` of an unresolved placeholder
re-emits the literal token and returns to the initial machine state. -/
theorem placeholderCore_close_final (f : Str → Option Str) (bc cc : Nat)
    (tpl : Bool) (r : Str) (h : cc + 1 = (if tpl then 3 else 2))
    (hres : f (trimStr r) = none ∨ trimStr r = []) :
    placeholderCore (some f) ⟨TemplateState.placeholder, bc, false, tpl, cc, r⟩ '}' =
      (initialTmplState,
       List.replicate (if tpl then 3 else 2) '{' ++ r ++
         List.replicate (if tpl then 3 else 2) '}') := by
  have hfin := finishPlaceholder_unres f
    ⟨TemplateState.placeholder, bc, false, tpl, cc, r⟩ (by simpa using hres)
  simp [placeholderCore, h, hfin, initialTmplState]

/-- Brace-free key text accumulates into `placeholderRaw` one character
at a time, emitting nothing. -/
theorem tmplRun_accum (f : Str → Option Str) (tpl : Bool) (bc : Nat) :
    ∀ (key raw rest : Str), (∀ c ∈ key, c ≠ '{' ∧ c ≠ '}') →
      tmplRunFrom (some f)
          ⟨TemplateState.placeholder, bc, false, tpl, 0, raw⟩ (key ++ rest) =
        tmplRunFrom (some f)
          ⟨TemplateState.placeholder, bc, false, tpl, 0, raw ++ key⟩ rest := by
  intro key
  induction key with
  | nil => intro raw rest _; simp
  | cons c key' ih =>
    intro raw rest h
    have hc := h c (by simp)
    have hstep : tmplStep (some f)
        ⟨TemplateState.placeholder, bc, false, tpl, 0, raw⟩ c =
        (⟨TemplateState.placeholder, bc, false, tpl, 0, raw ++ [c]⟩, []) := by
      have := placeholderCore_char f bc 0 tpl raw c hc.2
      simpa [tmplStep] using this
    rw [List.cons_append, tmplRunFrom_cons_eq _ _ _ _ _ _ hstep,
      ih (raw ++ [c]) rest (fun d hd => h d (by simp [hd]))]
    simp

/-- Core of claim C5 for `{{key}}`: an unresolved double-brace
placeholder is re-emitted literally and the machine returns to its
initial state. -/
theorem tmplRun_unresolved2 (f : Str → Option Str) (key rest : Str)
    (hkey : ∀ c ∈ key, c ≠ '{' ∧ c ≠ '}')
    (hres : f (trimStr key) = none ∨ trimStr key = []) :
    tmplRunFrom (some f) initialTmplState ('{' :: '{' :: (key ++ ('}' :: '}' :: rest))) =
      ((tmplRunFrom (some f) initialTmplState rest).1,
       '{' :: '{' :: (key ++ ('}' :: '}' ::
         (tmplRunFrom (some f) initialTmplState rest).2))) := by
  rw [tmplRunFrom_cons_eq _ _ _ _ _ _ (tmplStep_open1 f),
    tmplRunFrom_cons_eq _ _ _ _ _ _ (tmplStep_open2 f)]
  cases key with
  | nil =>
    have h3 : tmplStep (some f) ⟨TemplateState.placeholder, 2, true, false, 0, []⟩ '}' =
        (⟨TemplateState.placeholder, 2, false, false, 1, []⟩, []) := by
      rw [tmplStep_third_other f false '}' (by decide)]
      exact placeholderCore_close_partial f 2 0 false [] (by decide)
    have h4 : tmplStep (some f) ⟨TemplateState.placeholder, 2, false, false, 1, []⟩ '}' =
        (initialTmplState, '{' :: '{' :: ('}' :: '}' :: [])) := by
      have hcore := placeholderCore_close_final f 2 1 false [] (by decide)
        (Or.inr rfl)
      have hstep : tmplStep (some f)
          ⟨TemplateState.placeholder, 2, false, false, 1, []⟩ '}' =
          placeholderCore (some f)
            ⟨TemplateState.placeholder, 2, false, false, 1, []⟩ '}' := by
        simp [tmplStep]
      rw [hstep, hcore]; rfl
    simp only [List.nil_append]
    rw [tmplRunFrom_cons_eq _ _ _ _ _ _ h3, tmplRunFrom_cons_eq _ _ _ _ _ _ h4]
    simp
  | cons k0 key' =>
    have hk0 := hkey k0 (by simp)
    have h3 : tmplStep (some f) ⟨TemplateState.placeholder, 2, true, false, 0, []⟩ k0 =
        (⟨TemplateState.placeholder, 2, false, false, 0, [k0]⟩, []) := by
      rw [tmplStep_third_other f false k0 hk0.1]
      simpa using placeholderCore_char f 2 0 false [] k0 hk0.2
    rw [List.cons_append, tmplRunFrom_cons_eq _ _ _ _ _ _ h3,
      tmplRun_accum f false 2 key' [k0] ('}' :: '}' :: rest)
        (fun d hd => hkey d (by simp [hd]))]
    have h5 : tmplStep (some f)
        ⟨TemplateState.placeholder, 2, false, false, 0, [k0] ++ key'⟩ '}' =
        (⟨TemplateState.placeholder, 2, false, false, 1, [k0] ++ key'⟩, []) := by
      have := placeholderCore_close_partial f 2 0 false ([k0] ++ key') (by decide)
      simpa [tmplStep] using this
    have h6 : tmplStep (some f)
        ⟨TemplateState.placeholder, 2, false, false, 1, [k0] ++ key'⟩ '}' =
        (initialTmplState,
         '{' :: '{' :: (([k0] ++ key') ++ ('}' :: '}' :: []))) := by
      have hcore := placeholderCore_close_final f 2 1 false ([k0] ++ key')
        (by decide) (by simpa using hres)
      have hstep : tmplStep (some f)
          ⟨TemplateState.placeholder, 2, false, false, 1, [k0] ++ key'⟩ '}' =
          placeholderCore (some f)
            ⟨TemplateState.placeholder, 2, false, false, 1, [k0] ++ key'⟩ '}' := by
        simp [tmplStep]
      rw [hstep, hcore]
      simp [List.replicate]
    rw [tmplRunFrom_cons_eq _ _ _ _ _ _ h5, tmplRunFrom_cons_eq _ _ _ _ _ _ h6]
    simp

/-- Brace-free key text followed by end of stream leaves the machine in
`Placeholder` with the key accumulated and nothing emitted. -/
theorem tmplRun_accum_nil (f : Str → Option Str) (tpl : Bool) (bc : Nat)
    (key raw : Str) (h : ∀ c ∈ key, c ≠ '{' ∧ c ≠ '}') :
    tmplRunFrom (some f) ⟨TemplateState.placeholder, bc, false, tpl, 0, raw⟩ key =
      (⟨TemplateState.placeholder, bc, false, tpl, 0, raw ++ key⟩, []) := by
  have := tmplRun_accum f tpl bc key raw [] h
  simpa [tmplRunFrom] using this

/-- Core of claim C5 for `{{{key}}}`: an unresolved triple-brace
placeholder is re-emitted literally. -/
theorem tmplRun_unresolved3 (f : Str → Option Str) (key rest : Str)
    (hkey : ∀ c ∈ key, c ≠ '{' ∧ c ≠ '}')
    (hres : f (trimStr key) = none ∨ trimStr key = []) :
    tmplRunFrom (some f) initialTmplState
        ('{' :: '{' :: '{' :: (key ++ ('}' :: '}' :: '}' :: rest))) =
      ((tmplRunFrom (some f) initialTmplState rest).1,
       '{' :: '{' :: '{' :: (key ++ ('}' :: '}' :: '}' ::
         (tmplRunFrom (some f) initialTmplState rest).2))) := by
  rw [tmplRunFrom_cons_eq _ _ _ _ _ _ (tmplStep_open1 f),
    tmplRunFrom_cons_eq _ _ _ _ _ _ (tmplStep_open2 f),
    tmplRunFrom_cons_eq _ _ _ _ _ _ (tmplStep_third_brace f)]
  have hstep0 : ∀ (cc : Nat) (r : Str) (c : Char),
      tmplStep (some f) ⟨TemplateState.placeholder, 2, false, true, cc, r⟩ c =
        placeholderCore (some f) ⟨TemplateState.placeholder, 2, false, true, cc, r⟩ c := by
    intro cc r c; simp [tmplStep]
  have hclose : ∀ (r : Str), (f (trimStr r) = none ∨ trimStr r = []) →
      tmplRunFrom (some f) ⟨TemplateState.placeholder, 2, false, true, 0, r⟩
          ('}' :: '}' :: '}' :: rest) =
        ((tmplRunFrom (some f) initialTmplState rest).1,
         ('{' :: '{' :: '{' :: (r ++ ('}' :: '}' :: '}' :: []))) ++
           (tmplRunFrom (some f) initialTmplState rest).2) := by
    intro r hr
    have h1 : tmplStep (some f) ⟨TemplateState.placeholder, 2, false, true, 0, r⟩ '}' =
        (⟨TemplateState.placeholder, 2, false, true, 1, r⟩, []) := by
      rw [hstep0]; exact placeholderCore_close_partial f 2 0 true r (by decide)
    have h2 : tmplStep (some f) ⟨TemplateState.placeholder, 2, false, true, 1, r⟩ '}' =
        (⟨TemplateState.placeholder, 2, false, true, 2, r⟩, []) := by
      rw [hstep0]; exact placeholderCore_close_partial f 2 1 true r (by decide)
    have h3 : tmplStep (some f) ⟨TemplateState.placeholder, 2, false, true, 2, r⟩ '}' =
        (initialTmplState, '{' :: '{' :: '{' :: (r ++ ('}' :: '}' :: '}' :: []))) := by
      rw [hstep0]
      have hcore := placeholderCore_close_final f 2 2 true r (by decide) hr
      rw [hcore]
      simp [List.replicate]
    rw [tmplRunFrom_cons_eq _ _ _ _ _ _ h1, tmplRunFrom_cons_eq _ _ _ _ _ _ h2,
      tmplRunFrom_cons_eq _ _ _ _ _ _ h3]
    simp
  cases key with
  | nil =>
    simp only [List.nil_append]
    rw [hclose [] (Or.inr rfl)]
    simp
  | cons k0 key' =>
    have hk0 := hkey k0 (by simp)
    have h4 : tmplStep (some f) ⟨TemplateState.placeholder, 2, false, true, 0, []⟩ k0 =
        (⟨TemplateState.placeholder, 2, false, true, 0, [k0]⟩, []) := by
      rw [hstep0]
      simpa using placeholderCore_char f 2 0 true [] k0 hk0.2
    rw [List.cons_append, tmplRunFrom_cons_eq _ _ _ _ _ _ h4,
      tmplRun_accum f true 2 key' [k0] ('}' :: '}' :: '}' :: rest)
        (fun d hd => hkey d (by simp [hd])),
      hclose ([k0] ++ key') (by simpa using hres)]
    simp

/-- Claim C5: placeholder text that is not successfully substituted is
preserved byte-for-byte in the emitted stream: an unresolved `{{key}}`
or `{{{key}}}` is re-emitted as the original literal token (braces plus
raw key text), and end-of-stream inside `OpenBrace` or `Placeholder`
flushes the accumulated literal verbatim with no truncation. -/
theorem C5_unresolved_placeholder_preserved :
    (∀ (f : Str → Option Str) (key rest : Str),
      (∀ c ∈ key, c ≠ '{' ∧ c ≠ '}') →
      (f (trimStr key) = none ∨ trimStr key = []) →
      templateEmit (some f) (chars "\x7b\x7b" ++ (key ++ (chars "\x7d\x7d" ++ rest))) =
        chars "\x7b\x7b" ++ (key ++ (chars "\x7d\x7d" ++ templateEmit (some f) rest)))
    ∧ (∀ (f : Str → Option Str) (key rest : Str),
      (∀ c ∈ key, c ≠ '{' ∧ c ≠ '}') →
      (f (trimStr key) = none ∨ trimStr key = []) →
      templateEmit (some f) (chars "\x7b\x7b\x7b" ++ (key ++ (chars "\x7d\x7d\x7d" ++ rest))) =
        chars "\x7b\x7b\x7b" ++ (key ++ (chars "\x7d\x7d\x7d" ++ templateEmit (some f) rest)))
    ∧ (∀ f : Str → Option Str, templateEmit (some f) (chars "\x7b") = chars "\x7b")
    ∧ (∀ (f : Str → Option Str) (key : Str) (m : Nat),
      (∀ c ∈ key, c ≠ '{' ∧ c ≠ '}') → m ≤ 1 →
      templateEmit (some f) (chars "\x7b\x7b" ++ (key ++ List.replicate m '}')) =
        chars "\x7b\x7b" ++ (key ++ List.replicate m '}'))
    ∧ (∀ (f : Str → Option Str) (key : Str),
      (∀ c ∈ key, c ≠ '{' ∧ c ≠ '}') →
      templateEmit (some f) (chars "\x7b\x7b\x7b" ++ key) = chars "\x7b\x7b\x7b" ++ key) := by
  refine ⟨?_, ?_, ?_, ?_, ?_⟩
  · intro f key rest hkey hres
    show templateEmit (some f) ('{' :: '{' :: (key ++ ('}' :: '}' :: rest))) =
      '{' :: '{' :: (key ++ ('}' :: '}' :: templateEmit (some f) rest))
    simp only [templateEmit]
    rw [tmplRun_unresolved2 f key rest hkey hres]
    simp
  · intro f key rest hkey hres
    show templateEmit (some f) ('{' :: '{' :: '{' :: (key ++ ('}' :: '}' :: '}' :: rest))) =
      '{' :: '{' :: '{' :: (key ++ ('}' :: '}' :: '}' :: templateEmit (some f) rest))
    simp only [templateEmit]
    rw [tmplRun_unresolved3 f key rest hkey hres]
    simp
  · intro f
    show templateEmit (some f) ['{'] = ['{']
    simp only [templateEmit]
    rw [tmplRunFrom_cons_eq _ _ _ _ _ _ (tmplStep_open1 f)]
    simp [tmplRunFrom, tmplFinish]
  · intro f key m hkey hm
    show templateEmit (some f) ('{' :: '{' :: (key ++ List.replicate m '}')) =
      '{' :: '{' :: (key ++ List.replicate m '}')
    simp only [templateEmit]
    rw [tmplRunFrom_cons_eq _ _ _ _ _ _ (tmplStep_open1 f),
      tmplRunFrom_cons_eq _ _ _ _ _ _ (tmplStep_open2 f)]
    cases key with
    | nil =>
      interval_cases m
      · simp [tmplRunFrom, tmplFinish]
      · have h3 : tmplStep (some f)
            ⟨TemplateState.placeholder, 2, true, false, 0, []⟩ '}' =
            (⟨TemplateState.placeholder, 2, false, false, 1, []⟩, []) := by
          rw [tmplStep_third_other f false '}' (by decide)]
          exact placeholderCore_close_partial f 2 0 false [] (by decide)
        simp only [List.nil_append, List.replicate]
        rw [tmplRunFrom_cons_eq _ _ _ _ _ _ h3]
        simp [tmplRunFrom, tmplFinish]
    | cons k0 key' =>
      have hk0 := hkey k0 (by simp)
      have h3 : tmplStep (some f)
          ⟨TemplateState.placeholder, 2, true, false, 0, []⟩ k0 =
          (⟨TemplateState.placeholder, 2, false, false, 0, [k0]⟩, []) := by
        rw [tmplStep_third_other f false k0 hk0.1]
        simpa using placeholderCore_char f 2 0 false [] k0 hk0.2
      rw [List.cons_append, tmplRunFrom_cons_eq _ _ _ _ _ _ h3,
        tmplRun_accum f false 2 key' [k0] (List.replicate m '}')
          (fun d hd => hkey d (by simp [hd]))]
      interval_cases m
      · simp [tmplRunFrom, tmplFinish]
      · have h5 : tmplStep (some f)
            ⟨TemplateState.placeholder, 2, false, false, 0, [k0] ++ key'⟩ '}' =
            (⟨TemplateState.placeholder, 2, false, false, 1, [k0] ++ key'⟩, []) := by
          have := placeholderCore_close_partial f 2 0 false ([k0] ++ key') (by decide)
          simpa [tmplStep] using this
        simp only [List.replicate]
        rw [tmplRunFrom_cons_eq _ _ _ _ _ _ h5]
        simp [tmplRunFrom, tmplFinish]
  · intro f key hkey
    show templateEmit (some f) ('{' :: '{' :: '{' :: key) =
      '{' :: '{' :: '{' :: key
    simp only [templateEmit]
    rw [tmplRunFrom_cons_eq _ _ _ _ _ _ (tmplStep_open1 f),
      tmplRunFrom_cons_eq _ _ _ _ _ _ (tmplStep_open2 f),
      tmplRunFrom_cons_eq _ _ _ _ _ _ (tmplStep_third_brace f)]
    cases key with
    | nil => simp [tmplRunFrom, tmplFinish]
    | cons k0 key' =>
      have hk0 := hkey k0 (by simp)
      have h4 : tmplStep (some f)
          ⟨TemplateState.placeholder, 2, false, true, 0, []⟩ k0 =
          (⟨TemplateState.placeholder, 2, false, true, 0, [k0]⟩, []) := by
        have := placeholderCore_char f 2 0 true [] k0 hk0.2
        simpa [tmplStep] using this
      rw [tmplRunFrom_cons_eq _ _ _ _ _ _ h4,
        tmplRun_accum_nil f true 2 key' [k0]
          (fun d hd => hkey d (by simp [hd]))]
      simp [tmplFinish]

/-- Witness for C5: the spec's `{{missing}}` example with an
always-unhandled resolver, preserved byte-for-byte. -/
theorem C5_unresolved_placeholder_preserved_witness :
    templateEmit (some fun _ => none)
        (chars "\x7b\x7b" ++ (chars "missing" ++ (chars "\x7d\x7d" ++ []))) =
      chars "\x7b\x7b" ++ (chars "missing" ++
        (chars "\x7d\x7d" ++ templateEmit (some fun _ => none) [])) :=
  C5_unresolved_placeholder_preserved.1 (fun _ => none) (chars "missing") []
    (by decide) (Or.inl rfl)

/-- Invariant of the selection loop: either the accumulator survives
and every matching route in the remainder scores at most `bs`, or the
result comes from the remainder, strictly beats `bs`, is
score-maximal, and among equal-score matches is the earliest. -/
theorem selectRouteAux_spec (m : Nat) (path : List Str) :
    ∀ (rs : List DynamicRoute) (i : Nat)
      (best : Option (Nat × DynamicRoute × List (Str × Str))) (bs : Int),
      (selectRouteAux m path rs i best bs = best ∧
        ∀ j r', rs.get? j = some r' → r'.method = m →
          (matchRoute r'.segments path).isSome → r'.score ≤ bs)
      ∨ (∃ j r ps, rs.get? j = some r ∧
          selectRouteAux m path rs i best bs = some (i + j, r, ps) ∧
          r.method = m ∧ matchRoute r.segments path = some ps ∧ bs < r.score ∧
          ∀ j' r', rs.get? j' = some r' → r'.method = m →
            (matchRoute r'.segments path).isSome →
            r'.score ≤ r.score ∧ (r.score ≤ r'.score → j ≤ j')) := by
  intro rs
  induction rs with
  | nil =>
    intro i best bs
    left
    exact ⟨rfl, by intro j r' h; simp at h⟩
  | cons r0 rest ih =>
    intro i best bs
    by_cases hm : r0.method = m
    · cases hmr : matchRoute r0.segments path with
      | none =>
        have hunf : selectRouteAux m path (r0 :: rest) i best bs =
            selectRouteAux m path rest (i + 1) best bs := by
          simp [selectRouteAux, hm, hmr]
        rcases ih (i + 1) best bs with ⟨heq, hbound⟩ | ⟨j, r, ps, hget, hres, hrm, hrmr, hlt, hopt⟩
        · left
          refine ⟨hunf.trans heq, ?_⟩
          intro j r' hj hj2 hj3
          cases j with
          | zero =>
            simp at hj
            rw [← hj] at hj3
            rw [hmr] at hj3
            simp at hj3
          | succ j' => exact hbound j' r' (by simpa using hj) hj2 hj3
        · right
          refine ⟨j + 1, r, ps, by simpa using hget, ?_, hrm, hrmr, hlt, ?_⟩
          · rw [hunf, hres]; congr 2; omega
          · intro j' r' hj hj2 hj3
            cases j' with
            | zero =>
              simp at hj
              rw [← hj] at hj3
              rw [hmr] at hj3
              simp at hj3
            | succ j'' =>
              have := hopt j'' r' (by simpa using hj) hj2 hj3
              exact ⟨this.1, fun hs => by have := this.2 hs; omega⟩
      | some ps0 =>
        by_cases hlt0 : bs < r0.score
        · have hunf : selectRouteAux m path (r0 :: rest) i best bs =
              selectRouteAux m path rest (i + 1) (some (i, r0, ps0)) r0.score := by
            simp [selectRouteAux, hm, hmr, hlt0]
          rcases ih (i + 1) (some (i, r0, ps0)) r0.score with
            ⟨heq, hbound⟩ | ⟨j, r, ps, hget, hres, hrm, hrmr, hlt, hopt⟩
          · right
            refine ⟨0, r0, ps0, by simp, ?_, hm, hmr, hlt0, ?_⟩
            · rw [hunf, heq]; congr 2
            · intro j' r' hj hj2 hj3
              cases j' with
              | zero =>
                simp at hj
                subst hj
                exact ⟨le_refl _, fun _ => le_refl _⟩
              | succ j'' =>
                exact ⟨hbound j'' r' (by simpa using hj) hj2 hj3, fun _ => by omega⟩
          · right
            refine ⟨j + 1, r, ps, by simpa using hget, ?_, hrm, hrmr, by omega, ?_⟩
            · rw [hunf, hres]; congr 2; omega
            · intro j' r' hj hj2 hj3
              cases j' with
              | zero =>
                simp at hj
                subst hj
                exact ⟨by omega, fun hs => by omega⟩
              | succ j'' =>
                have := hopt j'' r' (by simpa using hj) hj2 hj3
                exact ⟨this.1, fun hs => by have := this.2 hs; omega⟩
        · have hunf : selectRouteAux m path (r0 :: rest) i best bs =
              selectRouteAux m path rest (i + 1) best bs := by
            simp [selectRouteAux, hm, hmr, hlt0]
          rcases ih (i + 1) best bs with ⟨heq, hbound⟩ | ⟨j, r, ps, hget, hres, hrm, hrmr, hlt, hopt⟩
          · left
            refine ⟨hunf.trans heq, ?_⟩
            intro j r' hj hj2 hj3
            cases j with
            | zero =>
              simp at hj
              subst hj
              omega
            | succ j' => exact hbound j' r' (by simpa using hj) hj2 hj3
          · right
            refine ⟨j + 1, r, ps, by simpa using hget, ?_, hrm, hrmr, hlt, ?_⟩
            · rw [hunf, hres]; congr 2; omega
            · intro j' r' hj hj2 hj3
              cases j' with
              | zero =>
                simp at hj
                subst hj
                exact ⟨by omega, fun hs => by omega⟩
              | succ j'' =>
                have := hopt j'' r' (by simpa using hj) hj2 hj3
                exact ⟨this.1, fun hs => by have := this.2 hs; omega⟩
    · have hunf : selectRouteAux m path (r0 :: rest) i best bs =
          selectRouteAux m path rest (i + 1) best bs := by
        simp [selectRouteAux, hm]
      rcases ih (i + 1) best bs with ⟨heq, hbound⟩ | ⟨j, r, ps, hget, hres, hrm, hrmr, hlt, hopt⟩
      · left
        refine ⟨hunf.trans heq, ?_⟩
        intro j r' hj hj2 hj3
        cases j with
        | zero =>
          simp at hj
          subst hj
          exact absurd hj2 hm
        | succ j' => exact hbound j' r' (by simpa using hj) hj2 hj3
      · right
        refine ⟨j + 1, r, ps, by simpa using hget, ?_, hrm, hrmr, hlt, ?_⟩
        · rw [hunf, hres]; congr 2; omega
        · intro j' r' hj hj2 hj3
          cases j' with
          | zero =>
            simp at hj
            subst hj
            exact absurd hj2 hm
          | succ j'' =>
            have := hopt j'' r' (by simpa using hj) hj2 hj3
            exact ⟨this.1, fun hs => by have := this.2 hs; omega⟩

/-- Claim C2: among all registered routes of the request's method whose
pattern matches the path, dispatch selects one with the maximal
specificity score (3 per literal, 2 per param, 1 per wildcard);
equal-score matches are won by the first-registered route; and the
all-literal `/users/new` (score 6) beats `/users/:id` (score 5) for
path `/users/new` in either registration order. -/
theorem C2_specificity_selection :
    (∀ (routes : List DynamicRoute) (m : Nat) (path : List Str),
      (∀ r ∈ routes, 0 ≤ r.score) →
      (∃ j r, routes.get? j = some r ∧ r.method = m ∧
        (matchRoute r.segments path).isSome) →
      ∃ i r ps, selectRoute m path routes = some (i, r, ps) ∧
        routes.get? i = some r ∧ r.method = m ∧
        matchRoute r.segments path = some ps ∧
        ∀ j r', routes.get? j = some r' → r'.method = m →
          (matchRoute r'.segments path).isSome →
          r'.score ≤ r.score ∧ (r.score ≤ r'.score → i ≤ j))
    ∧ (parseRoutePattern (chars "/users/new")).map Prod.snd = some 6
    ∧ (parseRoutePattern (chars "/users/:id")).map Prod.snd = some 5
    ∧ (normalizeRoutePath (chars "/users/new")).2.2 = [chars "users", chars "new"]
    ∧ (selectRoute 1 [chars "users", chars "new"]
        [routeFromPattern 1 "/users/new", routeFromPattern 1 "/users/:id"]).map
        (fun q => q.2.1.pattern) = some (chars "/users/new")
    ∧ (selectRoute 1 [chars "users", chars "new"]
        [routeFromPattern 1 "/users/:id", routeFromPattern 1 "/users/new"]).map
        (fun q => q.2.1.pattern) = some (chars "/users/new") := by
  refine ⟨?_, by decide, by decide, by decide, by decide, by decide⟩
  intro routes m path hscore hex
  rcases selectRouteAux_spec m path routes 0 none (-1) with
    ⟨heq, hbound⟩ | ⟨j, r, ps, hget, hres, hrm, hrmr, _, hopt⟩
  · exfalso
    rcases hex with ⟨j, r, hj, hj2, hj3⟩
    have h1 := hbound j r hj hj2 hj3
    have h2 := hscore r (List.get?_mem hj)
    omega
  · refine ⟨j, r, ps, ?_, hget, hrm, hrmr, ?_⟩
    · rw [show selectRoute m path routes =
        selectRouteAux m path routes 0 none (-1) from rfl, hres]
      congr 2
      omega
    · intro j' r' hj hj2 hj3
      exact hopt j' r' hj hj2 hj3

/-- Witness for C2 at the spec's concrete route pair, registered in the
less-specific-first order. -/
theorem C2_specificity_selection_witness :
    ∃ i r ps,
      selectRoute 1 [chars "users", chars "new"]
          [routeFromPattern 1 "/users/:id", routeFromPattern 1 "/users/new"] =
        some (i, r, ps) ∧
      [routeFromPattern 1 "/users/:id", routeFromPattern 1 "/users/new"].get? i =
        some r ∧
      r.method = 1 ∧
      matchRoute r.segments [chars "users", chars "new"] = some ps ∧
      ∀ j r', [routeFromPattern 1 "/users/:id",
          routeFromPattern 1 "/users/new"].get? j = some r' →
        r'.method = 1 →
        (matchRoute r'.segments [chars "users", chars "new"]).isSome →
        r'.score ≤ r.score ∧ (r.score ≤ r'.score → i ≤ j) :=
  C2_specificity_selection.1
    [routeFromPattern 1 "/users/:id", routeFromPattern 1 "/users/new"] 1
    [chars "users", chars "new"] (by decide)
    ⟨1, routeFromPattern 1 "/users/new", by decide, by decide, by decide⟩

/-- `findKeyAux` misses exactly when the target is not among the keys. -/
theorem findKeyAux_eq_none (t : Str) :
    ∀ (keys : List Str) (i : Nat), t ∉ keys → findKeyAux t keys i = none := by
  intro keys
  induction keys with
  | nil => intro i _; rfl
  | cons k ks ih =>
    intro i h
    have h1 : ¬k = t := by
      intro he
      exact h (by simp [he])
    simp [findKeyAux, h1, ih (i + 1) (fun hm => h (by simp [hm]))]

/-- `findKeyAux` hits when the target is among the keys. -/
theorem findKeyAux_isSome (t : Str) :
    ∀ (keys : List Str) (i : Nat), t ∈ keys → ∃ j, findKeyAux t keys i = some j := by
  intro keys
  induction keys with
  | nil => intro i h; simp at h
  | cons k ks ih =>
    intro i h
    by_cases hk : k = t
    · exact ⟨i, by simp [findKeyAux, hk]⟩
    · rcases List.mem_cons.mp h with he | hm
      · exact absurd he.symm hk
      · rcases ih (i + 1) hm with ⟨j, hj⟩
        exact ⟨j, by simp [findKeyAux, hk, hj]⟩

/-- A list is never equal to itself with `.gz` appended. -/
theorem ne_append_gz (s : Str) : s ≠ s ++ chars ".gz" := by
  intro h
  have h2 := congrArg List.length h
  rw [List.length_append] at h2
  have h3 : (chars ".gz").length = 3 := rfl
  omega

/-- The memory scan loop computes the first plain hit, the first gzip
hit and the directory-prefix flag. -/
theorem scanMem_eq (relBase gzRel dirPfx : Str) (hne : relBase ≠ gzRel) :
    ∀ (keys : List Str) (i : Nat) (p g : Option Nat) (h : Bool),
      scanMem relBase gzRel dirPfx keys i p g h =
        ((match p with | some v => some v | none => findKeyAux relBase keys i),
         (match g with | some v => some v | none => findKeyAux gzRel keys i),
         h || keys.any fun k => dirPfx.isPrefixOf k) := by
  intro keys
  induction keys with
  | nil =>
    intro i p g h
    cases p <;> cases g <;> simp [scanMem, findKeyAux]
  | cons k ks ih =>
    intro i p g h
    simp only [scanMem]
    rw [ih]
    rcases p with _ | pv <;> rcases g with _ | gv <;>
      by_cases hk1 : k = relBase <;> by_cases hk2 : k = gzRel <;>
        simp_all [findKeyAux, Bool.or_assoc]

/-- The memory scan as invoked by `setupStaticInfoFromMemory`, where
the gzip key is the plain key with `.gz` appended. -/
theorem scanMem_eq_gz (relBase dirPfx : Str) (keys : List Str) :
    scanMem relBase (relBase ++ chars ".gz") dirPfx keys 0 none none false =
      (findKeyAux relBase keys 0,
       findKeyAux (relBase ++ chars ".gz") keys 0,
       keys.any fun k => dirPfx.isPrefixOf k) := by
  rw [scanMem_eq relBase (relBase ++ chars ".gz") dirPfx (ne_append_gz relBase)]
  simp

/-- Every list is a prefix of itself extended on the right. -/
theorem isPrefixOf_append_self (l t : Str) : l.isPrefixOf (l ++ t) = true := by
  rw [List.isPrefixOf_iff_prefix]
  exact List.prefix_append l t

/-- `x ++ "index.html"` never ends in `.gz`. -/
theorem endsWith_html_gz (x : Str) :
    endsWithStr (x ++ chars "index.html") (chars ".gz") = false := by
  show (chars ".gz").reverse.isPrefixOf (x ++ chars "index.html").reverse = false
  rw [List.reverse_append]
  rfl

/-- `x ++ "index.htm"` never ends in `.gz`. -/
theorem endsWith_htm_gz (x : Str) :
    endsWithStr (x ++ chars "index.htm") (chars ".gz") = false := by
  show (chars ".gz").reverse.isPrefixOf (x ++ chars "index.htm").reverse = false
  rw [List.reverse_append]
  rfl

/-- A path ending in `/` does not end in `.gz`. -/
theorem endsWith_slash_not_gz (rel : Str)
    (h : endsWithStr rel (chars "/") = true) :
    endsWithStr rel (chars ".gz") = false := by
  rw [endsWithStr, List.isSuffixOf_iff_suffix] at h
  rw [endsWithStr, Bool.eq_false_iff, ne_eq, List.isSuffixOf_iff_suffix]
  intro hgz
  rcases List.suffix_or_suffix_of_suffix h hgz with h2 | h2 <;>
    exact absurd h2 (by decide)

/-- `ensureLeadingSlash` preserves a trailing slash. -/
theorem ensureLeadingSlash_endsWith_slash (rel : Str)
    (h : endsWithStr rel (chars "/") = true) :
    endsWithStr (ensureLeadingSlash rel) (chars "/") = true := by
  rw [endsWithStr, List.isSuffixOf_iff_suffix] at h
  unfold ensureLeadingSlash
  split
  · rw [endsWithStr, List.isSuffixOf_iff_suffix]; exact h
  · rw [endsWithStr, List.isSuffixOf_iff_suffix]
    rcases h with ⟨t, ht⟩
    exact ⟨'/' :: t, by simp [ht]⟩

/-- Counterexample to claim C3 as stated: in the memory backend a
request whose relative path ends in `.gz` (`/x.gz`) resolves with
`exists=true` even though the literal gzip entry `/x.gz` is absent,
because the sibling key `/x/index.html.gz` triggers directory-index
probing, which a `.gz` request may then satisfy. -/
theorem C3_gzip_negotiation_counterexample :
    (setupStaticInfoFromMemory [chars "/x/index.html.gz"] (chars "/x.gz")
      (chars "/x.gz")).info.existsFlag = true
    ∧ (setupStaticInfoFromMemory [chars "/x/index.html.gz"] (chars "/x.gz")
      (chars "/x.gz")).info.isGzipped = true
    ∧ endsWithStr (chars "/x.gz") (chars ".gz") = true
    ∧ chars "/x.gz" ∉ [chars "/x/index.html.gz"] := by decide

/-- Claim C3 as amended: gzip negotiation behaves as specified in the
filesystem backend (a `.gz` request probes only the literal gzip entry;
otherwise `<path>.gz` is preferred, with `logicalPath` the plain path,
falling back to the exact plain entry); in the memory backend the same
holds except that when neither exact key matches and a directory hint
holds (trailing slash or a stored key sharing the prefix `<path>/`),
directory-index probing still runs — even for a `.gz` request, which a
gzip index entry may then satisfy — and absence yields `exists=false`
only when that probing finds nothing or is not triggered. -/
theorem C3_gzip_negotiation_amended :
    (∀ (fsE fsD : Str → Bool) (base uri rel relBase : Str),
      endsWithStr rel (chars ".gz") = true →
      relBase = (if stripLast3 rel = [] then chars "/" else stripLast3 rel) →
      (setupStaticInfoFromFS fsE fsD base uri rel).existsFlag =
        fsE (joinFsPath base relBase ++ chars ".gz") ∧
      (setupStaticInfoFromFS fsE fsD base uri rel).isGzipped = true ∧
      (setupStaticInfoFromFS fsE fsD base uri rel).fsPath =
        joinFsPath base relBase ++ chars ".gz")
    ∧ (∀ (fsE fsD : Str → Bool) (base uri rel : Str),
      endsWithStr rel (chars ".gz") = false →
      fsE (joinFsPath base rel ++ chars ".gz") = true →
      setupStaticInfoFromFS fsE fsD base uri rel =
        { uri := uri, relPath := rel,
          fsPath := joinFsPath base rel ++ chars ".gz",
          existsFlag := true, isDir := false, isGzipped := true,
          logicalPath := rel })
    ∧ (∀ (fsE fsD : Str → Bool) (base uri rel : Str),
      endsWithStr rel (chars ".gz") = false →
      fsE (joinFsPath base rel ++ chars ".gz") = false →
      fsE (joinFsPath base rel) = true →
      fsD (joinFsPath base rel) = false →
      setupStaticInfoFromFS fsE fsD base uri rel =
        { uri := uri, relPath := rel, fsPath := joinFsPath base rel,
          existsFlag := true, isDir := false, isGzipped := false,
          logicalPath := rel })
    ∧ (∀ (fsE fsD : Str → Bool) (base uri rel : Str),
      endsWithStr rel (chars ".gz") = false →
      fsE (joinFsPath base rel ++ chars ".gz") = false →
      fsE (joinFsPath base rel) = false →
      (setupStaticInfoFromFS fsE fsD base uri rel).existsFlag = false)
    ∧ (∀ (keys : List Str) (uri rel relBase : Str),
      endsWithStr rel (chars ".gz") = true →
      relBase = ensureLeadingSlash
        (if stripLast3 rel = [] then chars "/" else stripLast3 rel) →
      relBase ++ chars ".gz" ∈ keys →
      (setupStaticInfoFromMemory keys uri rel).info.existsFlag = true ∧
      (setupStaticInfoFromMemory keys uri rel).info.isGzipped = true)
    ∧ (∀ (keys : List Str) (uri rel relBase dirPfx : Str),
      endsWithStr rel (chars ".gz") = true →
      relBase = ensureLeadingSlash
        (if stripLast3 rel = [] then chars "/" else stripLast3 rel) →
      dirPfx = (if endsWithStr relBase (chars "/") then relBase
                else relBase ++ ['/']) →
      relBase ++ chars ".gz" ∉ keys →
      relBase ∉ keys →
      endsWithStr rel (chars "/") = false →
      (∀ k ∈ keys, dirPfx.isPrefixOf k = false) →
      (setupStaticInfoFromMemory keys uri rel).info.existsFlag = false)
    ∧ (∀ (keys : List Str) (uri rel relBase dirPfx : Str),
      endsWithStr rel (chars ".gz") = true →
      relBase = ensureLeadingSlash
        (if stripLast3 rel = [] then chars "/" else stripLast3 rel) →
      dirPfx = (if endsWithStr relBase (chars "/") then relBase
                else relBase ++ ['/']) →
      relBase ++ chars ".gz" ∉ keys →
      relBase ∉ keys →
      dirPfx ++ chars "index.html.gz" ∈ keys →
      (setupStaticInfoFromMemory keys uri rel).info.existsFlag = true ∧
      (setupStaticInfoFromMemory keys uri rel).info.isGzipped = true ∧
      (setupStaticInfoFromMemory keys uri rel).info.logicalPath =
        dirPfx ++ chars "index.html")
    ∧ (∀ (keys : List Str) (uri rel relBase : Str),
      endsWithStr rel (chars ".gz") = false →
      relBase = ensureLeadingSlash rel →
      relBase ++ chars ".gz" ∈ keys →
      (setupStaticInfoFromMemory keys uri rel).info.existsFlag = true ∧
      (setupStaticInfoFromMemory keys uri rel).info.isGzipped = true ∧
      (setupStaticInfoFromMemory keys uri rel).info.logicalPath = rel)
    ∧ (∀ (keys : List Str) (uri rel relBase : Str),
      endsWithStr rel (chars ".gz") = false →
      relBase = ensureLeadingSlash rel →
      relBase ++ chars ".gz" ∉ keys →
      relBase ∈ keys →
      (setupStaticInfoFromMemory keys uri rel).info.existsFlag = true ∧
      (setupStaticInfoFromMemory keys uri rel).info.isGzipped = false ∧
      (setupStaticInfoFromMemory keys uri rel).info.logicalPath = rel)
    ∧ (setupStaticInfoFromMemory [chars "/app.js.gz"] (chars "/app.js")
        (chars "/app.js")).info =
      { uri := chars "/app.js", relPath := chars "/app.js",
        fsPath := chars "/app.js.gz", existsFlag := true, isDir := false,
        isGzipped := true, logicalPath := chars "/app.js" }
    ∧ (setupStaticInfoFromMemory [chars "/app.js"] (chars "/app.js.gz")
        (chars "/app.js.gz")).info.existsFlag = false := by
  refine ⟨?_, ?_, ?_, ?_, ?_, ?_, ?_, ?_, ?_, by decide, by decide⟩
  · intro fsE fsD base uri rel relBase hreq hrb
    subst hrb
    simp only [setupStaticInfoFromFS, hreq]
    by_cases h : fsE (joinFsPath base
        (if stripLast3 rel = [] then chars "/" else stripLast3 rel) ++
        chars ".gz") <;> simp [h]
  · intro fsE fsD base uri rel hreq hgz
    simp only [setupStaticInfoFromFS, hreq]
    simp [hgz, hreq]
  · intro fsE fsD base uri rel hreq hgz hplain hdir
    simp only [setupStaticInfoFromFS, hreq]
    simp [hgz, hplain, hdir, hreq]
  · intro fsE fsD base uri rel hreq hgz hplain
    simp only [setupStaticInfoFromFS, hreq]
    simp [hgz, hplain, hreq]
  · intro keys uri rel relBase hreq hrb hmem
    subst hrb
    obtain ⟨j, hj⟩ := findKeyAux_isSome _ keys 0 hmem
    simp only [setupStaticInfoFromMemory, hreq]
    rw [scanMem_eq_gz]
    simp [hj]
  · intro keys uri rel relBase dirPfx hreq hrb hdp hnog hnop hnosl hnoch
    have hg := findKeyAux_eq_none _ keys 0 hnog
    have hp := findKeyAux_eq_none _ keys 0 hnop
    have hany : (keys.any fun k => dirPfx.isPrefixOf k) = false := by
      rw [List.any_eq_false]
      intro k hk
      simp [hnoch k hk]
    simp only [setupStaticInfoFromMemory, hreq, reduceIte]
    rw [scanMem_eq_gz, ← hrb, ← hdp]
    simp [hg, hp, hany, hnosl]
  · intro keys uri rel relBase dirPfx hreq hrb hdp hnog hnop hidx
    have hg := findKeyAux_eq_none _ keys 0 hnog
    have hp := findKeyAux_eq_none _ keys 0 hnop
    have hsplit : chars "index.html" ++ chars ".gz" = chars "index.html.gz" := rfl
    have hidx' : dirPfx ++ (chars "index.html" ++ chars ".gz") ∈ keys := by
      rw [hsplit]; exact hidx
    obtain ⟨j, hj⟩ := findKeyAux_isSome _ keys 0 hidx'
    have hne : dirPfx ++ (chars "index.html" ++ chars ".gz") ≠ [] := by
      intro h
      rcases List.append_eq_nil.mp h with ⟨-, h2⟩
      rcases List.append_eq_nil.mp h2 with ⟨h3, -⟩
      exact absurd h3 (by decide)
    have hfind1 : findIndexByPath keys
        (dirPfx ++ (chars "index.html" ++ chars ".gz")) = some j := by
      unfold findIndexByPath
      rw [if_neg hne]
      exact hj
    have hany : (keys.any fun k => dirPfx.isPrefixOf k) = true := by
      rw [List.any_eq_true]
      refine ⟨dirPfx ++ chars "index.html.gz", hidx, ?_⟩
      simp [isPrefixOf_append_self]
    simp only [setupStaticInfoFromMemory, hreq, reduceIte]
    rw [scanMem_eq_gz, ← hrb, ← hdp]
    simp [hg, hp, hany, memIndexProbe, hfind1, hreq, endsWith_html_gz]
  · intro keys uri rel relBase hreq hrb hmem
    obtain ⟨j, hj⟩ := findKeyAux_isSome _ keys 0 hmem
    rw [hrb] at hj
    simp only [setupStaticInfoFromMemory, hreq, reduceIte]
    rw [scanMem_eq_gz]
    simp [hj, hreq]
  · intro keys uri rel relBase hreq hrb hnog hmem
    obtain ⟨j, hj⟩ := findKeyAux_isSome _ keys 0 hmem
    have hg := findKeyAux_eq_none _ keys 0 hnog
    rw [hrb] at hj hg
    simp only [setupStaticInfoFromMemory, hreq, reduceIte]
    rw [scanMem_eq_gz]
    simp [hj, hg, hreq]

/-- Witness for the amended C3: a concrete filesystem in which only
`/www/app.js.gz` exists, resolving a request for `/app.js` to the gzip
variant with the plain logical path. -/
theorem C3_gzip_negotiation_amended_witness :
    setupStaticInfoFromFS (fun p => p = chars "/www/app.js.gz") (fun _ => false)
        (chars "/www") (chars "/app.js") (chars "/app.js") =
      { uri := chars "/app.js", relPath := chars "/app.js",
        fsPath := joinFsPath (chars "/www") (chars "/app.js") ++ chars ".gz",
        existsFlag := true, isDir := false, isGzipped := true,
        logicalPath := chars "/app.js" } :=
  C3_gzip_negotiation_amended.2.1 (fun p => p = chars "/www/app.js.gz")
    (fun _ => false) (chars "/www") (chars "/app.js") (chars "/app.js")
    (by decide) (by decide)

/-- `ensureLeadingSlash` of a path ending in `index.html` never ends in
`.gz`. -/
theorem endsWith_ensure_html_gz (x : Str) :
    endsWithStr (ensureLeadingSlash (x ++ chars "index.html")) (chars ".gz") = false := by
  unfold ensureLeadingSlash
  split
  · exact endsWith_html_gz x
  · have h : '/' :: (x ++ chars "index.html") = ('/' :: x) ++ chars "index.html" := rfl
    rw [h]
    exact endsWith_html_gz ('/' :: x)

/-- `ensureLeadingSlash` of a path ending in `index.htm` never ends in
`.gz`. -/
theorem endsWith_ensure_htm_gz (x : Str) :
    endsWithStr (ensureLeadingSlash (x ++ chars "index.htm")) (chars ".gz") = false := by
  unfold ensureLeadingSlash
  split
  · exact endsWith_htm_gz x
  · have h : '/' :: (x ++ chars "index.htm") = ('/' :: x) ++ chars "index.htm" := rfl
    rw [h]
    exact endsWith_htm_gz ('/' :: x)

/-- Claim C6: when the resolved plain entry denotes a directory
(filesystem report, or memory-table key-prefix inference), the resolver
probes `index.html` then `index.htm` under that prefix, the gzip
variant of each before the plain file, before declaring not-found; and
a source containing only `/docs/index.html.gz` resolves `/docs/` to
that entry with `logicalPath=/docs/index.html`. -/
theorem C6_directory_index_fallback :
    (∀ (fsE fsD : Str → Bool) (base uri rel dirRel : Str),
      endsWithStr rel (chars ".gz") = false →
      fsE (joinFsPath base rel ++ chars ".gz") = false →
      fsE (joinFsPath base rel) = true →
      fsD (joinFsPath base rel) = true →
      dirRel = (if endsWithStr (ensureLeadingSlash rel) (chars "/")
          then ensureLeadingSlash rel else ensureLeadingSlash rel ++ ['/']) →
      (fsE (joinFsPath base (dirRel ++ chars "index.html") ++ chars ".gz") = true →
        setupStaticInfoFromFS fsE fsD base uri rel =
          { uri := uri, relPath := rel,
            fsPath := joinFsPath base (dirRel ++ chars "index.html") ++ chars ".gz",
            existsFlag := true, isDir := false, isGzipped := true,
            logicalPath := ensureLeadingSlash (dirRel ++ chars "index.html") }) ∧
      (fsE (joinFsPath base (dirRel ++ chars "index.html") ++ chars ".gz") = false →
        fsE (joinFsPath base (dirRel ++ chars "index.html")) = true →
        setupStaticInfoFromFS fsE fsD base uri rel =
          { uri := uri, relPath := rel,
            fsPath := joinFsPath base (dirRel ++ chars "index.html"),
            existsFlag := true, isDir := false, isGzipped := false,
            logicalPath := ensureLeadingSlash (dirRel ++ chars "index.html") }) ∧
      (fsE (joinFsPath base (dirRel ++ chars "index.html") ++ chars ".gz") = false →
        fsE (joinFsPath base (dirRel ++ chars "index.html")) = false →
        fsE (joinFsPath base (dirRel ++ chars "index.htm") ++ chars ".gz") = true →
        setupStaticInfoFromFS fsE fsD base uri rel =
          { uri := uri, relPath := rel,
            fsPath := joinFsPath base (dirRel ++ chars "index.htm") ++ chars ".gz",
            existsFlag := true, isDir := false, isGzipped := true,
            logicalPath := ensureLeadingSlash (dirRel ++ chars "index.htm") }) ∧
      (fsE (joinFsPath base (dirRel ++ chars "index.html") ++ chars ".gz") = false →
        fsE (joinFsPath base (dirRel ++ chars "index.html")) = false →
        fsE (joinFsPath base (dirRel ++ chars "index.htm") ++ chars ".gz") = false →
        fsE (joinFsPath base (dirRel ++ chars "index.htm")) = true →
        setupStaticInfoFromFS fsE fsD base uri rel =
          { uri := uri, relPath := rel,
            fsPath := joinFsPath base (dirRel ++ chars "index.htm"),
            existsFlag := true, isDir := false, isGzipped := false,
            logicalPath := ensureLeadingSlash (dirRel ++ chars "index.htm") }) ∧
      (fsE (joinFsPath base (dirRel ++ chars "index.html") ++ chars ".gz") = false →
        fsE (joinFsPath base (dirRel ++ chars "index.html")) = false →
        fsE (joinFsPath base (dirRel ++ chars "index.htm") ++ chars ".gz") = false →
        fsE (joinFsPath base (dirRel ++ chars "index.htm")) = false →
        (setupStaticInfoFromFS fsE fsD base uri rel).existsFlag = false))
    ∧ (∀ (keys : List Str) (uri rel relBase dirPfx : Str),
      endsWithStr rel (chars ".gz") = false →
      relBase = ensureLeadingSlash rel →
      dirPfx = (if endsWithStr relBase (chars "/") then relBase
          else relBase ++ ['/']) →
      relBase ++ chars ".gz" ∉ keys →
      relBase ∉ keys →
      (dirPfx ++ chars "index.html.gz" ∈ keys →
        (setupStaticInfoFromMemory keys uri rel).info.existsFlag = true ∧
        (setupStaticInfoFromMemory keys uri rel).info.isGzipped = true ∧
        (setupStaticInfoFromMemory keys uri rel).info.logicalPath =
          dirPfx ++ chars "index.html") ∧
      (dirPfx ++ chars "index.html.gz" ∉ keys →
        dirPfx ++ chars "index.html" ∈ keys →
        (setupStaticInfoFromMemory keys uri rel).info.existsFlag = true ∧
        (setupStaticInfoFromMemory keys uri rel).info.isGzipped = false ∧
        (setupStaticInfoFromMemory keys uri rel).info.logicalPath =
          dirPfx ++ chars "index.html") ∧
      (dirPfx ++ chars "index.html.gz" ∉ keys →
        dirPfx ++ chars "index.html" ∉ keys →
        dirPfx ++ chars "index.htm.gz" ∉ keys →
        dirPfx ++ chars "index.htm" ∉ keys →
        (setupStaticInfoFromMemory keys uri rel).info.existsFlag = false))
    ∧ (setupStaticInfoFromMemory [chars "/docs/index.html.gz"] (chars "/docs/")
        (chars "/docs/")).info =
      { uri := chars "/docs/", relPath := chars "/docs/",
        fsPath := chars "/docs/index.html.gz", existsFlag := true,
        isDir := false, isGzipped := true,
        logicalPath := chars "/docs/index.html" } := by
  refine ⟨?_, ?_, by decide⟩
  · intro fsE fsD base uri rel dirRel hreq hgz hplain hdir hdr
    subst hdr
    refine ⟨?_, ?_, ?_, ?_, ?_⟩
    · intro hc1g
      simp [setupStaticInfoFromFS, hreq, hgz, hplain, hdir, fsIndexProbe,
        hc1g, endsWith_ensure_html_gz]
    · intro hc1g hc1
      simp [setupStaticInfoFromFS, hreq, hgz, hplain, hdir, fsIndexProbe,
        hc1g, hc1]
    · intro hc1g hc1 hc2g
      simp [setupStaticInfoFromFS, hreq, hgz, hplain, hdir, fsIndexProbe,
        hc1g, hc1, hc2g, endsWith_ensure_htm_gz]
    · intro hc1g hc1 hc2g hc2
      simp [setupStaticInfoFromFS, hreq, hgz, hplain, hdir, fsIndexProbe,
        hc1g, hc1, hc2g, hc2]
    · intro hc1g hc1 hc2g hc2
      simp [setupStaticInfoFromFS, hreq, hgz, hplain, hdir, fsIndexProbe,
        hc1g, hc1, hc2g, hc2]
  · intro keys uri rel relBase dirPfx hreq hrb hdp hnog hnop
    have hg := findKeyAux_eq_none _ keys 0 hnog
    have hp := findKeyAux_eq_none _ keys 0 hnop
    have hs1 : chars "index.html" ++ chars ".gz" = chars "index.html.gz" := rfl
    have hs2 : chars "index.htm" ++ chars ".gz" = chars "index.htm.gz" := rfl
    refine ⟨?_, ?_, ?_⟩
    · intro hidx
      have hidx' : dirPfx ++ (chars "index.html" ++ chars ".gz") ∈ keys := by
        rw [hs1]; exact hidx
      obtain ⟨j, hj⟩ := findKeyAux_isSome _ keys 0 hidx'
      have hne : dirPfx ++ (chars "index.html" ++ chars ".gz") ≠ [] := by
        intro h
        rcases List.append_eq_nil.mp h with ⟨-, h2⟩
        rcases List.append_eq_nil.mp h2 with ⟨h3, -⟩
        exact absurd h3 (by decide)
      have hfind1 : findIndexByPath keys
          (dirPfx ++ (chars "index.html" ++ chars ".gz")) = some j := by
        unfold findIndexByPath
        rw [if_neg hne]
        exact hj
      have hany : (keys.any fun k => dirPfx.isPrefixOf k) = true := by
        rw [List.any_eq_true]
        exact ⟨dirPfx ++ chars "index.html.gz", hidx,
          by simp [isPrefixOf_append_self]⟩
      subst hdp; subst hrb
      simp [setupStaticInfoFromMemory, hreq, scanMem_eq_gz, hg, hp, hany,
        memIndexProbe, hfind1, endsWith_html_gz]
    · intro hnoidxg hidx
      have hnoidxg' : dirPfx ++ (chars "index.html" ++ chars ".gz") ∉ keys := by
        rw [hs1]; exact hnoidxg
      have hfind1 : findIndexByPath keys
          (dirPfx ++ (chars "index.html" ++ chars ".gz")) = none := by
        unfold findIndexByPath
        split
        · rfl
        · exact findKeyAux_eq_none _ keys 0 hnoidxg'
      have hne2 : dirPfx ++ chars "index.html" ≠ [] := by
        intro h
        rcases List.append_eq_nil.mp h with ⟨-, h2⟩
        exact absurd h2 (by decide)
      obtain ⟨j, hj⟩ := findKeyAux_isSome _ keys 0 hidx
      have hfind2 : findIndexByPath keys (dirPfx ++ chars "index.html") = some j := by
        unfold findIndexByPath
        rw [if_neg hne2]
        exact hj
      have hany : (keys.any fun k => dirPfx.isPrefixOf k) = true := by
        rw [List.any_eq_true]
        exact ⟨dirPfx ++ chars "index.html", hidx, isPrefixOf_append_self _ _⟩
      subst hdp; subst hrb
      simp [setupStaticInfoFromMemory, hreq, scanMem_eq_gz, hg, hp, hany,
        memIndexProbe, hfind1, hfind2, endsWith_html_gz]
    · intro h1 h2 h3 h4
      have hf1 : findIndexByPath keys (dirPfx ++ chars "index.html.gz") = none := by
        unfold findIndexByPath
        split
        · rfl
        · exact findKeyAux_eq_none _ keys 0 h1
      have hf2 : findIndexByPath keys (dirPfx ++ chars "index.html") = none := by
        unfold findIndexByPath
        split
        · rfl
        · exact findKeyAux_eq_none _ keys 0 h2
      have hf3 : findIndexByPath keys (dirPfx ++ chars "index.htm.gz") = none := by
        unfold findIndexByPath
        split
        · rfl
        · exact findKeyAux_eq_none _ keys 0 h3
      have hf4 : findIndexByPath keys (dirPfx ++ chars "index.htm") = none := by
        unfold findIndexByPath
        split
        · rfl
        · exact findKeyAux_eq_none _ keys 0 h4
      subst hdp; subst hrb
      by_cases hsl : endsWithStr rel (chars "/") = true
      · simp [setupStaticInfoFromMemory, hreq, hsl, scanMem_eq_gz, hg, hp,
          memIndexProbe, hf1, hf2, hf3, hf4, hs1, hs2]
      · have hsl' : endsWithStr rel (chars "/") = false := by
          simpa using hsl
        by_cases hany : (keys.any fun k =>
            (if endsWithStr (ensureLeadingSlash rel) (chars "/")
             then ensureLeadingSlash rel
             else ensureLeadingSlash rel ++ ['/']).isPrefixOf k) = true
        · simp [setupStaticInfoFromMemory, hreq, hsl', hany, scanMem_eq_gz,
            hg, hp, memIndexProbe, hf1, hf2, hf3, hf4, hs1, hs2]
        · have hany' : (keys.any fun k =>
              (if endsWithStr (ensureLeadingSlash rel) (chars "/")
               then ensureLeadingSlash rel
               else ensureLeadingSlash rel ++ ['/']).isPrefixOf k) = false := by
            simpa using hany
          simp [setupStaticInfoFromMemory, hreq, hsl', hany', scanMem_eq_gz,
            hg, hp]

/-- Witness for C6 at a concrete filesystem: `/docs` is a directory and
only `/docs/index.html.gz` exists under it. -/
theorem C6_directory_index_fallback_witness :
    setupStaticInfoFromFS
        (fun p => p = chars "/www/docs" ∨ p = chars "/www/docs/index.html.gz")
        (fun p => p = chars "/www/docs") (chars "/www") (chars "/docs")
        (chars "/docs") =
      { uri := chars "/docs", relPath := chars "/docs",
        fsPath := joinFsPath (chars "/www")
            ((if endsWithStr (ensureLeadingSlash (chars "/docs")) (chars "/")
              then ensureLeadingSlash (chars "/docs")
              else ensureLeadingSlash (chars "/docs") ++ ['/']) ++
              chars "index.html") ++ chars ".gz",
        existsFlag := true, isDir := false, isGzipped := true,
        logicalPath := ensureLeadingSlash
          ((if endsWithStr (ensureLeadingSlash (chars "/docs")) (chars "/")
            then ensureLeadingSlash (chars "/docs")
            else ensureLeadingSlash (chars "/docs") ++ ['/']) ++
            chars "index.html") } :=
  (C6_directory_index_fallback.1
    (fun p => p = chars "/www/docs" ∨ p = chars "/www/docs/index.html.gz")
    (fun p => p = chars "/www/docs") (chars "/www") (chars "/docs")
    (chars "/docs") _ (by decide) (by decide) (by decide) (by decide)
    rfl).1 (by decide)

/-- Claim C9: in the memory backend a request path ending in `/`
triggers directory-index probing even when no stored key shares the
directory prefix: when no exact plain or gzip entry matches, the
resolver looks up `index.html.gz`, `index.html`, `index.htm.gz` and
`index.htm` under the prefix, in that order, before returning
`exists=false`. -/
theorem C9_trailing_slash_triggers_index_probe :
    ∀ (keys : List Str) (uri rel relBase : Str),
      endsWithStr rel (chars "/") = true →
      relBase = ensureLeadingSlash rel →
      relBase ++ chars ".gz" ∉ keys →
      relBase ∉ keys →
      relBase ++ chars "index.html.gz" ∉ keys →
      relBase ++ chars "index.html" ∉ keys →
      relBase ++ chars "index.htm.gz" ∉ keys →
      relBase ++ chars "index.htm" ∉ keys →
      (setupStaticInfoFromMemory keys uri rel).probes =
        [relBase ++ chars "index.html.gz", relBase ++ chars "index.html",
         relBase ++ chars "index.htm.gz", relBase ++ chars "index.htm"] ∧
      (setupStaticInfoFromMemory keys uri rel).info.existsFlag = false := by
  intro keys uri rel relBase hslash hrb hnog hnop h1 h2 h3 h4
  have hreq := endsWith_slash_not_gz rel hslash
  have hdir : endsWithStr (ensureLeadingSlash rel) (chars "/") = true :=
    ensureLeadingSlash_endsWith_slash rel hslash
  have hg := findKeyAux_eq_none _ keys 0 hnog
  have hp := findKeyAux_eq_none _ keys 0 hnop
  have hs1 : chars "index.html" ++ chars ".gz" = chars "index.html.gz" := rfl
  have hs2 : chars "index.htm" ++ chars ".gz" = chars "index.htm.gz" := rfl
  have hf1 : findIndexByPath keys (relBase ++ chars "index.html.gz") = none := by
    unfold findIndexByPath
    split
    · rfl
    · exact findKeyAux_eq_none _ keys 0 h1
  have hf2 : findIndexByPath keys (relBase ++ chars "index.html") = none := by
    unfold findIndexByPath
    split
    · rfl
    · exact findKeyAux_eq_none _ keys 0 h2
  have hf3 : findIndexByPath keys (relBase ++ chars "index.htm.gz") = none := by
    unfold findIndexByPath
    split
    · rfl
    · exact findKeyAux_eq_none _ keys 0 h3
  have hf4 : findIndexByPath keys (relBase ++ chars "index.htm") = none := by
    unfold findIndexByPath
    split
    · rfl
    · exact findKeyAux_eq_none _ keys 0 h4
  subst hrb
  simp [setupStaticInfoFromMemory, hreq, hslash, hdir, scanMem_eq_gz, hg, hp,
    memIndexProbe, hf1, hf2, hf3, hf4, hs1, hs2]

/-- Witness for C9: a memory table containing only `/other`, queried
for `/docs/`, probes all four index candidates and misses. -/
theorem C9_trailing_slash_triggers_index_probe_witness :
    (setupStaticInfoFromMemory [chars "/other"] (chars "/docs/")
        (chars "/docs/")).probes =
      [ensureLeadingSlash (chars "/docs/") ++ chars "index.html.gz",
       ensureLeadingSlash (chars "/docs/") ++ chars "index.html",
       ensureLeadingSlash (chars "/docs/") ++ chars "index.htm.gz",
       ensureLeadingSlash (chars "/docs/") ++ chars "index.htm"] ∧
    (setupStaticInfoFromMemory [chars "/other"] (chars "/docs/")
        (chars "/docs/")).info.existsFlag = false :=
  C9_trailing_slash_triggers_index_probe [chars "/other"] (chars "/docs/")
    (chars "/docs/") _ (by decide) rfl (by decide) (by decide) (by decide)
    (by decide) (by decide) (by decide)

end EspHttpServer
